import Mathlib

/-!
Shallow embedding of the dependency-extraction and version-diff engine of
the release-tool repository (cmd/release-tool/util.go), together with
theorems checking the specification's claims against it.

Conventions of the embedding:
* Go strings are modelled by Lean `String` (the manifests are ASCII).
* Fallible Go functions returning `(T, error)` become `Except String T`.
* The process-global cache (`Cache` interface with `Get`/`Put`) becomes an
  explicit association list threaded through every function that uses it.
* Network effects (`http.Get`, `git ls-remote`) are modelled by an explicit
  environment `Env` of response functions, and every function that can hit
  the network also returns the list of remote calls it performed, so that
  "no HTTP call is made" is expressible as an empty call list.
* Go map iteration order is unspecified; functions that range over a map are
  parameterised by the iteration order (a permutation of the map's keys),
  with a canonical insertion-order variant.
-/

namespace ReleaseTool

/-- Characters Go's `unicode.IsSpace` accepts in the ASCII range; used by
`strings.Fields` and `strings.TrimSpace`. -/
def isGoSpace (c : Char) : Bool :=
  c = ' ' || c = '\t' || c = '\n' || c = '\x0b' || c = '\x0c' || c = '\r'

/-- Splitter over character lists used to model Go's string splitting in a
kernel-reducible way (same semantics as `String.split`). -/
def splitCharsAux (p : Char → Bool) : List Char → List Char → List (List Char)
  | [], acc => [acc.reverse]
  | c :: rest, acc =>
    if p c then acc.reverse :: splitCharsAux p rest []
    else splitCharsAux p rest (c :: acc)

/-- Splits a string at every character satisfying the predicate. -/
def strSplit (s : String) (p : Char → Bool) : List String :=
  (splitCharsAux p s.data []).map (fun l => String.mk l)

/-- Model of Go `strings.HasSuffix`. -/
def strEndsWith (s suf : String) : Bool :=
  suf.data.isSuffixOf s.data

/-- Model of Go `strings.HasPrefix`. -/
def strStartsWith (s pre : String) : Bool :=
  pre.data.isPrefixOf s.data

/-- Model of Go `strings.Fields`: split on whitespace runs, dropping empty
pieces. -/
def goFields (s : String) : List String :=
  (strSplit s isGoSpace).filter (fun t => t != "")

/-- Model of Go `strings.TrimSpace`. -/
def goTrimSpace (s : String) : String :=
  ⟨((s.data.dropWhile isGoSpace).reverse.dropWhile isGoSpace).reverse⟩

/-- First n characters of a string (Go slice `s[:n]` on ASCII data). -/
def strTake (s : String) (n : Nat) : String := ⟨s.data.take n⟩

/-- Characters of a string from position n on (Go slice `s[n:]`). -/
def strDrop (s : String) (n : Nat) : String := ⟨s.data.drop n⟩

/-- Model of Go `strings.Index` (first occurrence of a pattern), returning
`none` where Go returns -1. -/
def stringIndex (s pat : String) : Option Nat :=
  (List.range (s.data.length + 1)).find? (fun i => pat.data.isPrefixOf (s.data.drop i))

/-- Strips one trailing carriage return, as `bufio.ScanLines` does. -/
def dropCR (l : String) : String :=
  if strEndsWith l "\r" then ⟨l.data.dropLast⟩ else l

/-- The raw newline-separated segments of a byte payload, before the
carriage-return stripping of `bufio.ScanLines`. -/
def rawLines (s : String) : List String :=
  strSplit s (fun c => c = '\n')

/-- Splits a byte payload into the lines a `bufio.Scanner` would yield. -/
def splitLines (s : String) : List String :=
  (rawLines s).map dropCR

/-- `bufio.MaxScanTokenSize`: the default scanner buffer limit (64 KiB). -/
def maxScanTokenSize : Nat := 65536

/-- Whether scanning the payload with a default `bufio.Scanner` fails with
`bufio.ErrTooLong`: some newline-separated segment does not fit the 64 KiB
buffer (a terminated line of 65536 bytes needs 65537 buffer bytes to see
its newline, and an unterminated final line of 65536 bytes fills the buffer
before end-of-input is observed). -/
def scannerTooLong (s : String) : Bool :=
  (rawLines s).any (fun l => decide (maxScanTokenSize ≤ l.data.length))

/-- Model of `strings.FieldsFunc(s, c == '-')`: dash-separated fields with
empty fields dropped. -/
def splitDash (s : String) : List String :=
  (strSplit s (fun c => c = '-')).filter (fun t => t != "")

/-- The `dependency` struct of the source (main.go). -/
structure dependency where
  Name : String
  Ref : String
  Sha : String
  Previous : String
  GitURL : String
deriving Repr, DecidableEq

/-- Source `getCommitOrVersion`: parses the commit or version from go
modules and returns the commit sha or ref and whether the result is a git
sha. An empty returned string signals an error to the caller. -/
def getCommitOrVersion (cov : String) : String × Bool :=
  let dashFields := splitDash cov
  if dashFields.length > 3 then ("", false)
  else
    let p : String × Bool :=
      match dashFields with
      | [_, _, c] => (c, true)
      | _ => (cov, false)
    match stringIndex p.1 "+incompatible" with
    | some i => if 0 < i then (strTake p.1 i, p.2) else p
    | none => p

/-- Source `getGitURL`: known git clone URLs from module names; empty string
means the caller must fall back to the `?go-get=1` lookup. -/
def getGitURL (name : String) : String :=
  match stringIndex name "/" with
  | some idx =>
    if 0 < idx then
      let host := strTake name idx
      if host = "github.com" then "https://" ++ name
      else if host = "k8s.io" then "https://github.com/kubernetes" ++ strDrop name idx
      else if host = "sigs.k8s.io" then "https://github.com/kubernetes-sigs" ++ strDrop name idx
      else ""
    else ""
  | none => ""

/-- Source `formatDependency`. -/
def formatDependency (name commitOrVersion : String) (isSha : Bool) : dependency :=
  { Name := name
    Ref := commitOrVersion
    Sha := if isSha then commitOrVersion else ""
    Previous := ""
    GitURL := getGitURL name }

/-- Field-count dispatch of one `vendor/modules.txt` entry line (the body of
the scan loop of `parseModulesTxtDependencies`): yields the
`(name, commitOrVersionPart, parts[2])` triple, `none` for the skipped
5-field replace without a new version, or the format error. -/
def modulesTxtEntry (ln : String) (parts : List String) :
    Except String (Option (String × String × String)) :=
  match parts with
  | [_, name, v] => .ok (some (name, v, v))
  | [_, _, p2, _, _] =>
    if p2 = "=>" then .ok none else .error (ln ++ ": unknown file format")
  | [_, name, v1, p3, _, v2] =>
    if p3 = "=>" then .ok (some (name, v2, v1)) else .error (ln ++ ": unknown file format")
  | _ => .error (ln ++ ": unknown file format")

/-- Processing of one already-trimmed, non-blank `vendor/modules.txt` line:
`none` when the line contributes no dependency. -/
def modulesTxtLineDeps (ln : String) : Except String (Option dependency) :=
  match goFields ln with
  | [] => .ok none
  | p0 :: rest =>
    if p0 ≠ "#" then .ok none
    else
      match modulesTxtEntry ln (p0 :: rest) with
      | .error e => .error e
      | .ok none => .ok none
      | .ok (some (name, covPart, p2)) =>
        if (getCommitOrVersion covPart).1 = "" then
          .error ("poorly formatted version in replace section " ++ p2 ++ ": unknown file format")
        else
          .ok (some (formatDependency name (getCommitOrVersion covPart).1
            (getCommitOrVersion covPart).2))

/-- Scan loop of `parseModulesTxtDependencies` over the manifest's lines. -/
def parseModulesTxtLines : List String → Except String (List dependency)
  | [] => .ok []
  | l :: rest =>
    let ln := goTrimSpace l
    if ln = "" then parseModulesTxtLines rest
    else
      match modulesTxtLineDeps ln with
      | .error e => .error e
      | .ok none => parseModulesTxtLines rest
      | .ok (some d) =>
        match parseModulesTxtLines rest with
        | .error e => .error e
        | .ok ds => .ok (d :: ds)

/-- Source `parseModulesTxtDependencies` on raw manifest bytes. -/
def parseModulesTxtDependencies (content : String) : Except String (List dependency) :=
  parseModulesTxtLines (splitLines content)

/-- Source `sanitizeLine`. -/
def sanitizeLine (line commentDelim : String) : String :=
  let ln := goTrimSpace line
  if ln = "" then ""
  else
    match stringIndex ln commentDelim with
    | some 0 => ""
    | some i => goTrimSpace (strTake ln i)
    | none => ln

/-- Decides whether a character is a lowercase hexadecimal digit, the
character class of the source's `[0-9a-f]{40}` regular expression. -/
def isHexLowerDigit (c : Char) : Bool :=
  (decide ('0' ≤ c) && decide (c ≤ '9')) || (decide ('a' ≤ c) && decide (c ≤ 'f'))

/-- Model of `regexp.MustCompile("[0-9a-f]{40}").Match`: the string contains
a run of 40 lowercase hex digits somewhere (unanchored). -/
def containsHex40 (s : String) : Bool :=
  (List.range (s.data.length + 1)).any (fun i =>
    ((s.data.drop i).take 40).length == 40 && ((s.data.drop i).take 40).all isHexLowerDigit)

/-- Dependency built from one `vendor.conf` line (body of the scan loop of
`parseVendorConfDependencies` after the field-count check). -/
def vendorConfDep (name cov gitURL : String) : dependency :=
  if containsHex40 cov then
    { Name := name, Ref := strTake cov 12, Sha := strTake cov 12, Previous := "", GitURL := gitURL }
  else
    { Name := name, Ref := cov, Sha := "", Previous := "", GitURL := gitURL }

/-- Scan loop of `parseVendorConfDependencies` over the manifest's lines. -/
def parseVendorConfLines : List String → Except String (List dependency)
  | [] => .ok []
  | l :: rest =>
    let ln := sanitizeLine l "#"
    if ln = "" then parseVendorConfLines rest
    else
      match goFields ln with
      | [name, cov] =>
        match parseVendorConfLines rest with
        | .error e => .error e
        | .ok ds => .ok (vendorConfDep name cov (getGitURL name) :: ds)
      | [name, cov, url] =>
        match parseVendorConfLines rest with
        | .error e => .error e
        | .ok ds => .ok (vendorConfDep name cov url :: ds)
      | _ => .error ("invalid config format: " ++ ln)

/-- Source `parseVendorConfDependencies` on raw manifest bytes. -/
def parseVendorConfDependencies (content : String) : Except String (List dependency) :=
  parseVendorConfLines (splitLines content)

/-- One module path / version pair of a parsed go.mod file
(`module.Version` of golang.org/x/mod). -/
structure modVersion where
  Path : String
  Version : String
deriving Repr, DecidableEq

/-- One replace directive of a parsed go.mod file; the source only reads the
`New` side. -/
structure modReplace where
  Old : modVersion
  New : modVersion
deriving Repr, DecidableEq

/-- The parts of a go.mod file that `parseGoModDependencies` reads from the
result of `modfile.ParseLax` (an external library call): the `require` and
`replace` entries, in file order. -/
structure goModFile where
  Require : List modVersion
  Replace : List modReplace
deriving Repr, DecidableEq

/-- Rendering of a `module.Version` by `fmt` `%s`, used in error messages. -/
def modVersionString (m : modVersion) : String :=
  if m.Version = "" then m.Path else m.Path ++ "@" ++ m.Version

/-- A Go `map[string]*dependency` modelled as an association list in first
insertion order; lookups see the latest inserted value for a key. -/
abbrev DepMap := List (String × dependency)

/-- Lookup in a `DepMap` (Go map indexing). -/
def depLookup : DepMap → String → Option dependency
  | [], _ => none
  | p :: rest, k => if p.1 = k then some p.2 else depLookup rest k

/-- Insertion into a `DepMap` (Go map assignment): overwrites the value of an
existing key in place, otherwise appends. -/
def insertDep (m : DepMap) (k : String) (d : dependency) : DepMap :=
  if (depLookup m k).isSome then m.map (fun p => if p.1 = k then (k, d) else p)
  else m ++ [(k, d)]

/-- Keys of a `DepMap` in insertion order. -/
def depMapKeys (m : DepMap) : List String := m.map Prod.fst

/-- The `require` loop of `parseGoModDependencies`, building `depMap`. -/
def buildRequireMap : DepMap → List modVersion → Except String DepMap
  | m, [] => .ok m
  | m, r :: rest =>
    if (getCommitOrVersion r.Version).1 = "" then
      .error ("poorly formatted version in require section " ++ modVersionString r ++
        ": unknown file format")
    else
      buildRequireMap
        (insertDep m
          (formatDependency r.Path (getCommitOrVersion r.Version).1
            (getCommitOrVersion r.Version).2).Name
          (formatDependency r.Path (getCommitOrVersion r.Version).1
            (getCommitOrVersion r.Version).2))
        rest

/-- The `replace` loop of `parseGoModDependencies`, building `replaceMap`;
targets whose path starts with "./" are skipped. -/
def buildReplaceMap : DepMap → List modReplace → Except String DepMap
  | m, [] => .ok m
  | m, rep :: rest =>
    if strStartsWith rep.New.Path "./" then buildReplaceMap m rest
    else
      if (getCommitOrVersion rep.New.Version).1 = "" then
        .error ("poorly formatted version in replace section " ++ modVersionString rep.New ++
          ": unknown file format")
      else
        buildReplaceMap
          (insertDep m
            (formatDependency rep.New.Path (getCommitOrVersion rep.New.Version).1
              (getCommitOrVersion rep.New.Version).2).Name
            (formatDependency rep.New.Path (getCommitOrVersion rep.New.Version).1
              (getCommitOrVersion rep.New.Version).2))
          rest

/-- One iteration of the merge loop of `parseGoModDependencies`: a replace
entry overrides `Ref`/`Sha`/`GitURL` of the matching require entry, and is
dropped when no require entry matches. -/
def applyReplace (dm : DepMap) (p : String × dependency) : DepMap :=
  match depLookup dm p.1 with
  | some od =>
    dm.map (fun q =>
      if q.1 = p.1 then (q.1, { od with Ref := p.2.Ref, Sha := p.2.Sha, GitURL := p.2.GitURL })
      else q)
  | none => dm

/-- The merge loop of `parseGoModDependencies` over all replace entries.
The iteration order of the Go map does not affect the result because each
entry touches a distinct key. -/
def mergeReplaces (dm rm : DepMap) : DepMap := rm.foldl applyReplace dm

/-- The final name-to-record map `depMap` built by `parseGoModDependencies`
before it is flattened to a slice. -/
def goModDepMap (gm : goModFile) : Except String DepMap :=
  match buildRequireMap [] gm.Require with
  | .error e => .error e
  | .ok dm =>
    match buildReplaceMap [] gm.Replace with
    | .error e => .error e
    | .ok rm => .ok (mergeReplaces dm rm)

/-- Source `parseGoModDependencies`, with the final `for _, dep := range
depMap` loop modelled by an explicit iteration order `order` (Go map
iteration order is unspecified; any permutation of the map's keys is a
possible run). -/
def parseGoModDependenciesWith (gm : goModFile) (order : List String) :
    Except String (List dependency) :=
  match goModDepMap gm with
  | .error e => .error e
  | .ok m => .ok (order.filterMap (fun k => depLookup m k))

/-- Source `parseGoModDependencies` with the canonical (insertion-order)
iteration of the final map. -/
def parseGoModDependencies (gm : goModFile) : Except String (List dependency) :=
  match goModDepMap gm with
  | .error e => .error e
  | .ok m => .ok ((depMapKeys m).filterMap (fun k => depLookup m k))

/-- The memo store of the `Cache` interface (disk-backed implementation),
modelled as an association list; `Put` prepends, so lookups see the newest
value for a key. -/
abbrev Cache := List (String × String)

/-- Cache `Get`. -/
def cacheGet : Cache → String → Option String
  | [], _ => none
  | p :: rest, k => if p.1 = k then some p.2 else cacheGet rest k

/-- Cache `Put`. -/
def cachePut (c : Cache) (k v : String) : Cache := (k, v) :: c

/-- One remote operation performed by the engine, recorded so that theorems
can state that a code path performs no network call. -/
inductive remoteCall where
  | httpGet (url : String)
  | lsRemote (gitURL rev revPeeled : String)
deriving Repr, DecidableEq

/-- An HTML page as far as `resolveGitURL` inspects it: the HTTP status code
and the attribute lists of the start/self-closing tags, in document order. -/
structure httpPage where
  status : Nat
  tags : List (List (String × String))
deriving Repr, DecidableEq

/-- The outside world: HTTP GET responses and `git ls-remote` outputs. An
`Except.error` models a failed HTTP request or a git command exiting
non-zero. -/
structure Env where
  httpGet : String → Except String httpPage
  lsRemote : String → String → String → Except String String

/-- Literal "^\x7b\x7d", the annotated-tag dereference suffix appended to the
ref in the `git ls-remote` query. -/
def peeledSuffix : String := "^\x7b\x7d"

/-- The cache key built by `getSha` (`git ls-remote %s %s %s^\x7b\x7d`). -/
def shaKey (gitURL rev : String) : String :=
  "git ls-remote " ++ gitURL ++ " " ++ rev ++ " " ++ rev ++ peeledSuffix

/-- Truncation of a sha to 12 characters (`if len(sha) > 12`). -/
def take12max (s : String) : String :=
  if s.data.length > 12 then strTake s 12 else s

/-- One iteration of the scan loop of `getSha` over an ls-remote output
line; the state is the current `(sha, resolved)` pair. -/
def scanShaStep (st : String × Bool) (line : String) : String × Bool :=
  match goFields line with
  | [f0, f1] =>
    if strEndsWith f1 peeledSuffix then (take12max f0, true)
    else if st.2 then st
    else (take12max f0, st.2)
  | _ => st

/-- The scan loop of `getSha`: the sha selected from the ls-remote output
lines, preferring the peeled (dereferenced) entry. -/
def scanShaLines (lines : List String) : String :=
  (lines.foldl scanShaStep ("", false)).1

/-- Source `getSha`: resolves the remote commit for a ref, returning the
result, the cache after the call, and the remote calls performed. A failed
remote query degrades to `ok ""`. The `s.Err()` check after the scan loop
is modelled by `scannerTooLong`: a payload with an over-long line makes the
scanner fail with `bufio.ErrTooLong` and that error is returned (discarding
any sha already scanned) before the empty-sha check; otherwise an output
with no usable line is the "revision not found" error. -/
def getSha (gitURL rev : String) (env : Env) (cache : Cache) :
    Except String String × Cache × List remoteCall :=
  match cacheGet cache (shaKey gitURL rev) with
  | some b => (.ok b, cache, [])
  | none =>
    match env.lsRemote gitURL rev (rev ++ peeledSuffix) with
    | .error _ => (.ok "", cache, [.lsRemote gitURL rev (rev ++ peeledSuffix)])
    | .ok b =>
      if scannerTooLong b then
        (.error "bufio.Scanner: token too long", cache,
          [.lsRemote gitURL rev (rev ++ peeledSuffix)])
      else if scanShaLines (splitLines b) = "" then
        (.error "revision not found", cache, [.lsRemote gitURL rev (rev ++ peeledSuffix)])
      else
        (.ok (scanShaLines (splitLines b)),
          cachePut cache (shaKey gitURL rev) (scanShaLines (splitLines b)),
          [.lsRemote gitURL rev (rev ++ peeledSuffix)])

/-- Value of an attribute in a tag's attribute list; the loop in the source
lets a later attribute with the same key win. -/
def attrValue (attrs : List (String × String)) (key : String) : String :=
  attrs.foldl (fun acc p => if p.1 = key then p.2 else acc) ""

/-- The token loop of `resolveGitURL`: the first tag whose `name` attribute
is `go-import` and whose `content` has exactly three fields with transport
`git` yields the clone URL; exhausting the tags is a failure. -/
def findGoImport : List (List (String × String)) → Option String
  | [] => none
  | attrs :: rest =>
    if attrValue attrs "name" = "go-import" then
      match goFields (attrValue attrs "content") with
      | [_, transport, repo] => if transport = "git" then some repo else findGoImport rest
      | _ => findGoImport rest
    else findGoImport rest

/-- The `?go-get=1` query URL for a module path. -/
def goGetURL (name : String) : String := "https://" ++ name ++ "?go-get=1"

/-- Source `resolveGitURL`: resolves a module path to its clone URL via the
cached `?go-get=1` HTTP lookup, returning the result, the cache after the
call, and the remote calls performed. Only a successful resolution is
stored in the cache. -/
def resolveGitURL (name : String) (env : Env) (cache : Cache) :
    Except String String × Cache × List remoteCall :=
  match cacheGet cache (goGetURL name) with
  | some b => (.ok b, cache, [])
  | none =>
    match env.httpGet (goGetURL name) with
    | .error e => (.error e, cache, [.httpGet (goGetURL name)])
    | .ok page =>
      if page.status ≥ 400 then
        (.error ("unexpected status code " ++ toString page.status ++ " for " ++ goGetURL name),
          cache, [.httpGet (goGetURL name)])
      else
        match findGoImport page.tags with
        | some resolved =>
          (.ok resolved, cachePut cache (goGetURL name) resolved, [.httpGet (goGetURL name)])
        | none => (.error "no go-import meta tag", cache, [.httpGet (goGetURL name)])

/-- Quoting of a name by `%q` in the error wrapping of `getUpdatedDeps`. -/
def quoted (s : String) : String := "\"" ++ s ++ "\""

/-- Source `toDepMap`. -/
def toDepMap (deps : List dependency) : DepMap :=
  deps.foldl (fun m d => insertDep m d.Name d) []

/-- The `d.GitURL == ""` inner branch of the `d.Sha == ""` block of
`getUpdatedDeps`: resolves the previous-side clone URL, also copying the
freshly resolved URL onto the current-side record when that one has none. -/
def resolvePrevURL (name : String) (d c : dependency) (env : Env) (cache : Cache) :
    Except String (dependency × dependency × Cache × List remoteCall) :=
  if d.GitURL = "" then
    match resolveGitURL name env cache with
    | (.error e, _, _) => .error ("git url for " ++ quoted name ++ ": " ++ e)
    | (.ok u, cache1, calls1) =>
      .ok ({ d with GitURL := u },
        (if c.GitURL = "" then { c with GitURL := u } else c), cache1, calls1)
  else .ok (d, c, cache, [])

/-- The `d.Sha == ""` block of `getUpdatedDeps` (continued): after the URL
step, look up the previous-side sha. -/
def resolvePrevSha (name : String) (d c : dependency) (env : Env) (cache : Cache) :
    Except String (dependency × dependency × Cache × List remoteCall) :=
  if d.Sha = "" then
    match resolvePrevURL name d c env cache with
    | .error e => .error e
    | .ok (d1, c1, cache1, calls1) =>
      match getSha d1.GitURL d1.Ref env cache1 with
      | (.error e, _, _) => .error ("failed to get sha for " ++ quoted name ++ ": " ++ e)
      | (.ok sha, cache2, calls2) => .ok ({ d1 with Sha := sha }, c1, cache2, calls1 ++ calls2)
  else .ok (d, c, cache, [])

/-- The `c.GitURL == ""` inner branch of the `c.Sha == ""` block of
`getUpdatedDeps`. -/
def resolveCurrURL (name : String) (c : dependency) (env : Env) (cache : Cache) :
    Except String (dependency × Cache × List remoteCall) :=
  if c.GitURL = "" then
    match resolveGitURL name env cache with
    | (.error e, _, _) => .error ("git url for " ++ quoted name ++ ": " ++ e)
    | (.ok u, cache1, calls1) => .ok ({ c with GitURL := u }, cache1, calls1)
  else .ok (c, cache, [])

/-- The `c.Sha == ""` block of `getUpdatedDeps`: enriches the current-side
record. -/
def resolveCurrSha (name : String) (c : dependency) (env : Env) (cache : Cache) :
    Except String (dependency × Cache × List remoteCall) :=
  if c.Sha = "" then
    match resolveCurrURL name c env cache with
    | .error e => .error e
    | .ok (c1, cache1, calls1) =>
      match getSha c1.GitURL c1.Ref env cache1 with
      | (.error e, _, _) => .error ("failed to get sha for " ++ quoted name ++ ": " ++ e)
      | (.ok sha, cache2, calls2) => .ok ({ c1 with Sha := sha }, cache2, calls1 ++ calls2)
  else .ok (c, cache, [])

/-- The body of the `for name, c := range cm` loop of `getUpdatedDeps` for
one current-side entry: `none` when the dependency is not reported. -/
def diffOne (pm : DepMap) (ignored : List String) (env : Env) (cache : Cache)
    (name : String) (c : dependency) :
    Except String (Option dependency × Cache × List remoteCall) :=
  if name ∈ ignored then .ok (none, cache, [])
  else
    match depLookup pm name with
    | none => .ok (some c, cache, [])
    | some d =>
      if d.Ref ≠ c.Ref then
        match resolvePrevSha name d c env cache with
        | .error e => .error e
        | .ok (d1, c1, cache1, calls1) =>
          match resolveCurrSha name c1 env cache1 with
          | .error e => .error e
          | .ok (c2, cache2, calls2) =>
            if d1.Sha ≠ c2.Sha then
              .ok (some { c2 with Previous := d.Ref }, cache2, calls1 ++ calls2)
            else .ok (none, cache2, calls1 ++ calls2)
      else .ok (none, cache, [])

/-- The `for name, c := range cm` loop of `getUpdatedDeps` over a given
iteration order of the current-side map, threading the cache. -/
def runDiff (pm : DepMap) (ignored : List String) (env : Env) :
    List (String × dependency) → Cache → Except String (List dependency × Cache × List remoteCall)
  | [], cache => .ok ([], cache, [])
  | (name, c) :: rest, cache =>
    match diffOne pm ignored env cache name c with
    | .error e => .error e
    | .ok (emitted, cache1, calls1) =>
      match runDiff pm ignored env rest cache1 with
      | .error e => .error e
      | .ok (us, cache2, calls2) =>
        .ok ((match emitted with | some u => u :: us | none => us), cache2, calls1 ++ calls2)

/-- Source `getUpdatedDeps` with the canonical (insertion-order) iteration
of the current-side map; any permutation of its entries is a possible Go
run. -/
def getUpdatedDeps (previous deps : List dependency) (ignored : List String)
    (env : Env) (cache : Cache) : Except String (List dependency × Cache × List remoteCall) :=
  runDiff (toDepMap previous) ignored env (toDepMap deps) cache

deriving instance DecidableEq for Except

/-! ## Lemmas about the map model -/

/-- Lookup after replacing the value of key `k` everywhere in the list. -/
theorem depLookup_map_replace (m : DepMap) (k n : String) (d : dependency) :
    depLookup (m.map (fun p => if p.1 = k then (k, d) else p)) n =
      if k = n then (depLookup m k).map (fun _ => d) else depLookup m n := by
  induction m with
  | nil => by_cases h : k = n <;> simp [depLookup, h]
  | cons p rest ih =>
    simp only [List.map_cons]
    by_cases h1 : p.1 = k
    · rw [if_pos h1]
      by_cases h2 : k = n
      · subst h2
        simp [depLookup, h1]
      · have hL : depLookup ((k, d) :: rest.map (fun p => if p.1 = k then (k, d) else p)) n =
            depLookup (rest.map (fun p => if p.1 = k then (k, d) else p)) n := by
          simp [depLookup, h2]
        have hpn : ¬ p.1 = n := fun hpn => h2 (by rw [← h1, hpn])
        rw [hL, ih, if_neg h2, if_neg h2]
        simp [depLookup, hpn]
    · rw [if_neg h1]
      by_cases h3 : p.1 = n
      · have h2 : ¬ k = n := fun hkn => h1 (by rw [h3, hkn])
        simp [depLookup, h3, h2]
      · by_cases h2 : k = n
        · subst h2
          simp [depLookup, h3, h1, ih]
        · simp [depLookup, h3, h1, ih, h2]

/-- Lookup after appending a single binding. -/
theorem depLookup_append_single (m : DepMap) (k n : String) (d : dependency) :
    depLookup (m ++ [(k, d)]) n =
      match depLookup m n with
      | some v => some v
      | none => if k = n then some d else none := by
  induction m with
  | nil => simp [depLookup]
  | cons p rest ih =>
    by_cases h : p.1 = n <;> simp [depLookup, h, ih]

/-- Go map semantics of `insertDep`: the inserted key now maps to the new
value and every other key is untouched. -/
theorem depLookup_insertDep (m : DepMap) (k n : String) (d : dependency) :
    depLookup (insertDep m k d) n = if k = n then some d else depLookup m n := by
  unfold insertDep
  by_cases hs : (depLookup m k).isSome
  · rw [if_pos hs, depLookup_map_replace]
    by_cases h2 : k = n
    · subst h2
      obtain ⟨v, hv⟩ := Option.isSome_iff_exists.mp hs
      simp [hv]
    · simp [h2]
  · rw [if_neg hs, depLookup_append_single]
    cases hn : depLookup m n with
    | some v =>
      have h2 : ¬ k = n := by
        intro h2
        subst h2
        rw [hn] at hs
        simp at hs
      simp [h2]
    | none => simp [hn]

/-- Lookup in a fold of insertions reduces to a last-wins fold over the
inserted records. -/
theorem depLookup_foldl_insert (deps : List dependency) (m0 : DepMap) (n : String) :
    depLookup (deps.foldl (fun m d => insertDep m d.Name d) m0) n =
      deps.foldl (fun acc d => if d.Name = n then some d else acc) (depLookup m0 n) := by
  induction deps generalizing m0 with
  | nil => rfl
  | cons d t ih => simp [List.foldl, ih, depLookup_insertDep]

/-! ## C6 — version normalizer -/

/-- C6: the version normalizer maps "v1.2.3" to ("v1.2.3", false), the
pseudo-version "v0.0.0-20200101000000-abcdef123456" to its commit field with
the commit flag set, strips "+incompatible", and rejects every token with
more than 3 dash-separated fields with an empty string and a false flag. -/
theorem c6_theorem :
    getCommitOrVersion "v1.2.3" = ("v1.2.3", false)
    ∧ getCommitOrVersion "v0.0.0-20200101000000-abcdef123456" = ("abcdef123456", true)
    ∧ getCommitOrVersion "v1.0.0+incompatible" = ("v1.0.0", false)
    ∧ ∀ s, (splitDash s).length > 3 → getCommitOrVersion s = ("", false) :=
  ⟨by decide, by decide, by decide, fun s h => by simp [getCommitOrVersion, h]⟩

/-- C6 witness: the rejection branch evaluated on a concrete 4-field token. -/
theorem c6_witness :
    (splitDash "a-b-c-d").length > 3 ∧ getCommitOrVersion "a-b-c-d" = ("", false) :=
  ⟨by decide, c6_theorem.2.2.2 "a-b-c-d" (by decide)⟩

/-! ## C2 — lockfile (modules.txt) parser -/

/-- C2 counterexample: on the spec's own replace line the emitted dependency
is keyed by the OLD module path (field 2), not by the new module path
(field 5) as the claim states. -/
theorem c2_counterexample :
    (parseModulesTxtDependencies "# github.com/foo/bar v1.0.0 => github.com/foo/baz v2.0.0").map
      (fun l => l.map dependency.Name) = .ok ["github.com/foo/bar"]
    ∧ "github.com/foo/bar" ≠ "github.com/foo/baz" :=
  ⟨by decide, by decide⟩

/-- C2 amended: a 6-field replace line emits exactly one dependency keyed by
the old module path (the 2nd field) with Ref the normalized new version
(the 6th field); a plain 3-field line emits one dependency keyed by the
module path with Ref the normalized version. -/
theorem c2_theorem :
    (parseModulesTxtDependencies "# github.com/foo/bar v1.2.3" =
      .ok [{ Name := "github.com/foo/bar", Ref := "v1.2.3", Sha := "", Previous := "",
             GitURL := "https://github.com/foo/bar" }])
    ∧ (parseModulesTxtDependencies "# github.com/foo/bar v1.0.0 => github.com/foo/baz v2.0.0" =
      .ok [{ Name := "github.com/foo/bar", Ref := "v2.0.0", Sha := "", Previous := "",
             GitURL := "https://github.com/foo/bar" }])
    ∧ (∀ ln old v1 new v2, goFields ln = ["#", old, v1, "=>", new, v2] →
        (getCommitOrVersion v2).1 ≠ "" →
        modulesTxtLineDeps ln =
          .ok (some (formatDependency old (getCommitOrVersion v2).1 (getCommitOrVersion v2).2)))
    ∧ (∀ ln name v, goFields ln = ["#", name, v] →
        (getCommitOrVersion v).1 ≠ "" →
        modulesTxtLineDeps ln =
          .ok (some (formatDependency name (getCommitOrVersion v).1 (getCommitOrVersion v).2)))
    ∧ (∀ name cov isSha, (formatDependency name cov isSha).Name = name
        ∧ (formatDependency name cov isSha).Ref = cov) := by
  refine ⟨by decide, by decide, ?_, ?_, fun name cov isSha => ⟨rfl, rfl⟩⟩
  · intro ln old v1 new v2 h h2
    simp [modulesTxtLineDeps, h, modulesTxtEntry, h2]
  · intro ln name v h h2
    simp [modulesTxtLineDeps, h, modulesTxtEntry, h2]

/-- C2 witness: the general replace-line statement evaluated on a concrete
line. -/
theorem c2_witness :
    goFields "# a.example/m v1.0.0 => b.example/n v2.0.0" =
      ["#", "a.example/m", "v1.0.0", "=>", "b.example/n", "v2.0.0"]
    ∧ (getCommitOrVersion "v2.0.0").1 ≠ ""
    ∧ modulesTxtLineDeps "# a.example/m v1.0.0 => b.example/n v2.0.0" =
        .ok (some (formatDependency "a.example/m" (getCommitOrVersion "v2.0.0").1
          (getCommitOrVersion "v2.0.0").2)) :=
  ⟨by decide, by decide,
    c2_theorem.2.2.1 "# a.example/m v1.0.0 => b.example/n v2.0.0"
      "a.example/m" "v1.0.0" "b.example/n" "v2.0.0" (by decide) (by decide)⟩

/-! ## C10 — duplicate names in the differ's map -/

/-- Concrete environment used by witnesses that need an `Env`. -/
def envW : Env where
  httpGet := fun _ => .error "unused"
  lsRemote := fun _ _ _ => .error "unused"

/-- C10: the differ's name-to-record map keeps only the last occurrence of a
name in list order (the lookup equals a last-wins fold over the list), and
the diff result depends on the input lists only through these maps, so
earlier duplicates never influence it. -/
theorem c10_theorem :
    (∀ (deps : List dependency) (n : String),
      depLookup (toDepMap deps) n =
        deps.foldl (fun acc d => if d.Name = n then some d else acc) none)
    ∧ (∀ previous deps deps2 ignored env cache, toDepMap deps = toDepMap deps2 →
        getUpdatedDeps previous deps ignored env cache =
          getUpdatedDeps previous deps2 ignored env cache) := by
  constructor
  · intro deps n
    have := depLookup_foldl_insert deps [] n
    simpa [toDepMap, depLookup] using this
  · intro previous deps deps2 ignored env cache h
    unfold getUpdatedDeps
    rw [h]

/-- C10 witness: with two records sharing a name, lookup yields the later
one and the duplicate-free list produces the identical diff. -/
theorem c10_witness :
    depLookup (toDepMap
        [{ Name := "x", Ref := "v1", Sha := "", Previous := "", GitURL := "" },
         { Name := "x", Ref := "v2", Sha := "", Previous := "", GitURL := "" }]) "x" =
      some { Name := "x", Ref := "v2", Sha := "", Previous := "", GitURL := "" }
    ∧ toDepMap
        [{ Name := "x", Ref := "v1", Sha := "", Previous := "", GitURL := "" },
         { Name := "x", Ref := "v2", Sha := "", Previous := "", GitURL := "" }] =
      toDepMap [{ Name := "x", Ref := "v2", Sha := "", Previous := "", GitURL := "" }]
    ∧ getUpdatedDeps []
        [{ Name := "x", Ref := "v1", Sha := "", Previous := "", GitURL := "" },
         { Name := "x", Ref := "v2", Sha := "", Previous := "", GitURL := "" }] [] envW [] =
      getUpdatedDeps [] [{ Name := "x", Ref := "v2", Sha := "", Previous := "", GitURL := "" }]
        [] envW [] :=
  ⟨by decide, by decide,
    c10_theorem.2 [] _ _ [] envW [] (by decide)⟩

/-! ## C4 — Sha shape invariants of the parsers -/

/-- A string containing a 40-character lowercase-hex run is at least 40
characters long. -/
theorem containsHex40_length {s : String} (h : containsHex40 s = true) :
    40 ≤ s.data.length := by
  unfold containsHex40 at h
  rw [List.any_eq_true] at h
  obtain ⟨i, _, hi⟩ := h
  rw [Bool.and_eq_true, beq_iff_eq] at hi
  have h1 : ((s.data.drop i).take 40).length = min 40 (s.data.drop i).length :=
    List.length_take 40 _
  have h2 : 40 ≤ (s.data.drop i).length := by
    rw [hi.1] at h1
    exact h1 ▸ Nat.min_le_right 40 _
  have h3 : (s.data.drop i).length = s.data.length - i := List.length_drop i _
  omega

/-- A non-empty Sha coming out of `vendorConfDep` is exactly 12 characters
and coincides with the record's Ref. -/
theorem vendorConfDep_sha (name cov url : String) :
    (vendorConfDep name cov url).Sha ≠ "" →
    (vendorConfDep name cov url).Sha.data.length = 12
    ∧ (vendorConfDep name cov url).Sha = (vendorConfDep name cov url).Ref := by
  unfold vendorConfDep
  by_cases h : containsHex40 cov = true
  · have h40 := containsHex40_length h
    rw [if_pos h]
    intro _
    refine ⟨?_, rfl⟩
    show (strTake cov 12).data.length = 12
    simp only [strTake]
    rw [List.length_take]
    omega
  · rw [if_neg h]
    intro hne
    exact absurd rfl hne

/-- A non-empty Sha coming out of `formatDependency` coincides with the
record's Ref. -/
theorem formatDependency_sha (name cov : String) (isSha : Bool) :
    (formatDependency name cov isSha).Sha ≠ "" →
    (formatDependency name cov isSha).Sha = (formatDependency name cov isSha).Ref := by
  unfold formatDependency
  cases isSha <;> simp

/-- Sha/Ref invariant of the vendor.conf scan loop. -/
theorem parseVendorConfLines_sha (lines : List String) (l : List dependency)
    (h : parseVendorConfLines lines = .ok l) :
    ∀ d ∈ l, d.Sha ≠ "" → d.Sha.data.length = 12 ∧ d.Sha = d.Ref := by
  induction lines generalizing l with
  | nil =>
    simp only [parseVendorConfLines, Except.ok.injEq] at h
    subst h
    simp
  | cons ln rest ih =>
    rw [parseVendorConfLines] at h
    split at h
    · exact ih l h
    · split at h
      · split at h
        · exact absurd h (by simp)
        · rename_i ds heq
          rw [Except.ok.injEq] at h
          subst h
          intro d hd
          rcases List.mem_cons.mp hd with h' | h'
          · subst h'
            exact vendorConfDep_sha _ _ _
          · exact ih ds heq d h'
      · split at h
        · exact absurd h (by simp)
        · rename_i ds heq
          rw [Except.ok.injEq] at h
          subst h
          intro d hd
          rcases List.mem_cons.mp hd with h' | h'
          · subst h'
            exact vendorConfDep_sha _ _ _
          · exact ih ds heq d h'
      · exact absurd h (by simp)

/-- Sha/Ref invariant of one modules.txt line. -/
theorem modulesTxtLineDeps_sha (ln : String) (d : dependency)
    (h : modulesTxtLineDeps ln = .ok (some d)) : d.Sha ≠ "" → d.Sha = d.Ref := by
  rw [modulesTxtLineDeps] at h
  split at h
  · exact absurd h (by simp)
  · split at h
    · exact absurd h (by simp)
    · split at h
      · exact absurd h (by simp)
      · exact absurd h (by simp)
      · split at h
        · exact absurd h (by simp)
        · rw [Except.ok.injEq, Option.some.injEq] at h
          subst h
          exact formatDependency_sha _ _ _

/-- Sha/Ref invariant of the modules.txt scan loop. -/
theorem parseModulesTxtLines_sha (lines : List String) (l : List dependency)
    (h : parseModulesTxtLines lines = .ok l) :
    ∀ d ∈ l, d.Sha ≠ "" → d.Sha = d.Ref := by
  induction lines generalizing l with
  | nil =>
    simp only [parseModulesTxtLines, Except.ok.injEq] at h
    subst h
    simp
  | cons ln rest ih =>
    rw [parseModulesTxtLines] at h
    split at h
    · exact ih l h
    · split at h
      · exact absurd h (by simp)
      · exact ih l h
      · rename_i d0 heq0
        split at h
        · exact absurd h (by simp)
        · rename_i ds heq
          rw [Except.ok.injEq] at h
          subst h
          intro d hd
          rcases List.mem_cons.mp hd with h' | h'
          · subst h'
            exact modulesTxtLineDeps_sha _ _ heq0
          · exact ih ds heq d h'

/-- Membership after a map insertion. -/
theorem mem_insertDep {m : DepMap} {k : String} {d : dependency} {p : String × dependency}
    (h : p ∈ insertDep m k d) : p ∈ m ∨ p = (k, d) := by
  unfold insertDep at h
  by_cases hs : (depLookup m k).isSome
  · rw [if_pos hs] at h
    obtain ⟨q, hq, hfq⟩ := List.mem_map.mp h
    by_cases h1 : q.1 = k
    · right
      rw [← hfq, if_pos h1]
    · left
      rw [← hfq, if_neg h1]
      exact hq
  · rw [if_neg hs] at h
    rcases List.mem_append.mp h with h' | h'
    · left; exact h'
    · right; simpa using h'

/-- A successful lookup is a member of the association list. -/
theorem depLookup_mem {m : DepMap} {k : String} {v : dependency}
    (h : depLookup m k = some v) : (k, v) ∈ m := by
  induction m with
  | nil => simp [depLookup] at h
  | cons p rest ih =>
    rw [depLookup] at h
    split at h
    · rename_i hk
      rw [Option.some.injEq] at h
      have hp : (k, v) = p := by rw [← hk, ← h]
      rw [hp]
      exact List.mem_cons_self p rest
    · exact List.mem_cons_of_mem p (ih h)

/-- Sha/Ref invariant of the require-map construction. -/
theorem buildRequireMap_sha (rs : List modVersion) (m dm : DepMap)
    (hm : ∀ p ∈ m, p.2.Sha ≠ "" → p.2.Sha = p.2.Ref)
    (h : buildRequireMap m rs = .ok dm) :
    ∀ p ∈ dm, p.2.Sha ≠ "" → p.2.Sha = p.2.Ref := by
  induction rs generalizing m with
  | nil =>
    simp only [buildRequireMap, Except.ok.injEq] at h
    subst h
    exact hm
  | cons r rest ih =>
    rw [buildRequireMap] at h
    split at h
    · exact absurd h (by simp)
    · refine ih _ (fun p hp => ?_) h
      rcases mem_insertDep hp with h' | h'
      · exact hm p h'
      · subst h'
        exact formatDependency_sha _ _ _

/-- Sha/Ref invariant of the replace-map construction. -/
theorem buildReplaceMap_sha (rs : List modReplace) (m dm : DepMap)
    (hm : ∀ p ∈ m, p.2.Sha ≠ "" → p.2.Sha = p.2.Ref)
    (h : buildReplaceMap m rs = .ok dm) :
    ∀ p ∈ dm, p.2.Sha ≠ "" → p.2.Sha = p.2.Ref := by
  induction rs generalizing m with
  | nil =>
    simp only [buildReplaceMap, Except.ok.injEq] at h
    subst h
    exact hm
  | cons r rest ih =>
    rw [buildReplaceMap] at h
    split at h
    · exact ih _ hm h
    · split at h
      · exact absurd h (by simp)
      · refine ih _ (fun p hp => ?_) h
        rcases mem_insertDep hp with h' | h'
        · exact hm p h'
        · subst h'
          exact formatDependency_sha _ _ _

/-- Sha/Ref invariant of one replace-merge step. -/
theorem applyReplace_sha (dm : DepMap) (p : String × dependency)
    (hdm : ∀ q ∈ dm, q.2.Sha ≠ "" → q.2.Sha = q.2.Ref)
    (hp : p.2.Sha ≠ "" → p.2.Sha = p.2.Ref) :
    ∀ q ∈ applyReplace dm p, q.2.Sha ≠ "" → q.2.Sha = q.2.Ref := by
  unfold applyReplace
  split
  · intro q hq
    obtain ⟨q0, hq0, hfq⟩ := List.mem_map.mp hq
    by_cases h1 : q0.1 = p.1
    · rw [← hfq, if_pos h1]
      exact hp
    · rw [← hfq, if_neg h1]
      exact hdm q0 hq0
  · exact hdm

/-- Sha/Ref invariant of the replace-merge loop. -/
theorem mergeReplaces_sha (rm : DepMap) (dm : DepMap)
    (hdm : ∀ q ∈ dm, q.2.Sha ≠ "" → q.2.Sha = q.2.Ref)
    (hrm : ∀ q ∈ rm, q.2.Sha ≠ "" → q.2.Sha = q.2.Ref) :
    ∀ q ∈ mergeReplaces dm rm, q.2.Sha ≠ "" → q.2.Sha = q.2.Ref := by
  induction rm generalizing dm with
  | nil => exact hdm
  | cons p rest ih =>
    refine ih _ (applyReplace_sha dm p hdm (hrm p (by simp))) ?_
    intro q hq
    exact hrm q (by simp [hq])

/-- C4 counterexample: the claim's bound fails in both directions — a
modules.txt pseudo-version with a 24-character commit field yields a
24-character Sha, and a vendor.conf token that merely contains a 40-hex run
yields a Sha that is not lowercase hex. -/
theorem c4_counterexample :
    (parseModulesTxtDependencies "# example.com/m v0.0.0-20200101000000-aaaaaaaaaaaaaaaaaaaaaaaa" =
      .ok [{ Name := "example.com/m", Ref := "aaaaaaaaaaaaaaaaaaaaaaaa",
             Sha := "aaaaaaaaaaaaaaaaaaaaaaaa", Previous := "", GitURL := "" }]
     ∧ ("aaaaaaaaaaaaaaaaaaaaaaaa" : String).data.length = 24)
    ∧ (parseVendorConfDependencies "pkg zaaaaaaaaaaaaaaaaaaaaaaaaaaaaaaaaaaaaaaaaa" =
      .ok [{ Name := "pkg", Ref := "zaaaaaaaaaaa", Sha := "zaaaaaaaaaaa", Previous := "",
             GitURL := "" }]
     ∧ ("zaaaaaaaaaaa" : String).data.all isHexLowerDigit = false) :=
  ⟨⟨by decide, by decide⟩, ⟨by decide, by decide⟩⟩

/-- C4 amended: a non-empty Sha always equals the record's Ref; the legacy
pinned-list parser further guarantees it is exactly 12 characters. No
parser guarantees the Sha is lowercase hex, and the normalizer-based
parsers put no bound on its length. -/
theorem c4_theorem :
    (∀ content l, parseVendorConfDependencies content = .ok l →
      ∀ d ∈ l, d.Sha ≠ "" → d.Sha.data.length = 12 ∧ d.Sha = d.Ref)
    ∧ (∀ content l, parseModulesTxtDependencies content = .ok l →
      ∀ d ∈ l, d.Sha ≠ "" → d.Sha = d.Ref)
    ∧ (∀ gm l, parseGoModDependencies gm = .ok l →
      ∀ d ∈ l, d.Sha ≠ "" → d.Sha = d.Ref) := by
  refine ⟨fun content l h => parseVendorConfLines_sha _ l h,
    fun content l h => parseModulesTxtLines_sha _ l h, fun gm l h => ?_⟩
  rw [parseGoModDependencies] at h
  split at h
  · exact absurd h (by simp)
  · rename_i m hm
    rw [Except.ok.injEq] at h
    subst h
    rw [goModDepMap] at hm
    split at hm
    · exact absurd hm (by simp)
    · rename_i dm hdm
      split at hm
      · exact absurd hm (by simp)
      · rename_i rm hrm
        rw [Except.ok.injEq] at hm
        subst hm
        intro d hd
        obtain ⟨k, _, hk⟩ := List.mem_filterMap.mp hd
        have hmem := depLookup_mem hk
        exact mergeReplaces_sha rm dm
          (buildRequireMap_sha _ _ _ (by simp) hdm)
          (buildReplaceMap_sha _ _ _ (by simp) hrm) _ hmem

/-- C4 witness: the amended statement evaluated on a concrete pinned
vendor.conf manifest. -/
theorem c4_witness :
    parseVendorConfDependencies "pkg aaaaaaaaaaaaaaaaaaaaaaaaaaaaaaaaaaaaaaaa" =
      .ok [{ Name := "pkg", Ref := "aaaaaaaaaaaa", Sha := "aaaaaaaaaaaa", Previous := "",
             GitURL := "" }]
    ∧ ("aaaaaaaaaaaa" : String) ≠ ""
    ∧ ("aaaaaaaaaaaa" : String).data.length = 12
    ∧ ("aaaaaaaaaaaa" : String) = "aaaaaaaaaaaa" :=
  ⟨by decide, by decide,
    (c4_theorem.1 "pkg aaaaaaaaaaaaaaaaaaaaaaaaaaaaaaaaaaaaaaaa"
      [{ Name := "pkg", Ref := "aaaaaaaaaaaa", Sha := "aaaaaaaaaaaa", Previous := "",
         GitURL := "" }] (by decide)
      { Name := "pkg", Ref := "aaaaaaaaaaaa", Sha := "aaaaaaaaaaaa", Previous := "", GitURL := "" }
      (by decide) (by decide)).1,
    (c4_theorem.1 "pkg aaaaaaaaaaaaaaaaaaaaaaaaaaaaaaaaaaaaaaaa"
      [{ Name := "pkg", Ref := "aaaaaaaaaaaa", Sha := "aaaaaaaaaaaa", Previous := "",
         GitURL := "" }] (by decide)
      { Name := "pkg", Ref := "aaaaaaaaaaaa", Sha := "aaaaaaaaaaaa", Previous := "", GitURL := "" }
      (by decide) (by decide)).2⟩

/-! ## C5 — caching in the git-origin resolver -/

/-- Environment whose pages never carry a go-import tag. -/
def envNoTag : Env where
  httpGet := fun _ => .ok { status := 200, tags := [] }
  lsRemote := fun _ _ _ => .error "unused"

/-- C5 counterexample: a failed resolution attempt (page without a go-import
tag) performs the HTTP call but stores nothing in the cache, so the claim
that every attempt stores an entry under the query URL is false. -/
theorem c5_counterexample :
    resolveGitURL "example.com/x" envNoTag [] =
      (.error "no go-import meta tag", [], [.httpGet "https://example.com/x?go-get=1"])
    ∧ cacheGet [] "https://example.com/x?go-get=1" = none :=
  ⟨by decide, rfl⟩

/-- C5 amended: a cache hit for the query URL returns the cached value with
no HTTP call; a successful resolution leaves the resolved URL stored under
the query URL (with exactly one HTTP call when it missed); a failed attempt
leaves the cache unchanged. -/
theorem c5_theorem :
    (∀ name env cache v, cacheGet cache (goGetURL name) = some v →
      resolveGitURL name env cache = (.ok v, cache, []))
    ∧ (∀ name env cache r cache2 calls,
      resolveGitURL name env cache = (.ok r, cache2, calls) →
      cacheGet cache2 (goGetURL name) = some r
      ∧ (cacheGet cache (goGetURL name) = none → calls = [.httpGet (goGetURL name)]))
    ∧ (∀ name env cache e cache2 calls,
      resolveGitURL name env cache = (.error e, cache2, calls) → cache2 = cache) := by
  refine ⟨?_, ?_, ?_⟩
  · intro name env cache v hv
    rw [resolveGitURL, hv]
  · intro name env cache r cache2 calls h
    rw [resolveGitURL] at h
    split at h
    · rename_i b hb
      rw [Prod.mk.injEq, Prod.mk.injEq] at h
      obtain ⟨h1, h2, h3⟩ := h
      rw [Except.ok.injEq] at h1
      subst h1 h2 h3
      exact ⟨hb, fun hn => absurd hb (by rw [hn]; simp)⟩
    · rename_i hb
      split at h
      · exact absurd h (by simp)
      · split at h
        · exact absurd h (by simp)
        · split at h
          · rename_i resolved hfind
            rw [Prod.mk.injEq, Prod.mk.injEq] at h
            obtain ⟨h1, h2, h3⟩ := h
            rw [Except.ok.injEq] at h1
            subst h1 h2 h3
            exact ⟨by rw [cachePut, cacheGet, if_pos rfl], fun _ => rfl⟩
          · exact absurd h (by simp)
  · intro name env cache e cache2 calls h
    rw [resolveGitURL] at h
    split at h
    · exact absurd h (by simp)
    · split at h
      · rw [Prod.mk.injEq, Prod.mk.injEq] at h
        exact h.2.1.symm
      · split at h
        · rw [Prod.mk.injEq, Prod.mk.injEq] at h
          exact h.2.1.symm
        · split at h
          · exact absurd h (by simp)
          · rw [Prod.mk.injEq, Prod.mk.injEq] at h
            exact h.2.1.symm

/-- Environment serving a valid go-import meta tag for every URL. -/
def envTag : Env where
  httpGet := fun _ =>
    .ok { status := 200,
          tags := [[("name", "go-import"),
                    ("content", "example.com/x git https://git.example.com/x")]] }
  lsRemote := fun _ _ _ => .error "unused"

/-- C5 witness: one successful miss stores the resolved URL; the second call
with the same key is a pure cache hit with no HTTP call. -/
theorem c5_witness :
    resolveGitURL "example.com/x" envTag [] =
      (.ok "https://git.example.com/x",
        [("https://example.com/x?go-get=1", "https://git.example.com/x")],
        [.httpGet "https://example.com/x?go-get=1"])
    ∧ cacheGet [("https://example.com/x?go-get=1", "https://git.example.com/x")]
        (goGetURL "example.com/x") = some "https://git.example.com/x"
    ∧ resolveGitURL "example.com/x" envTag
        [("https://example.com/x?go-get=1", "https://git.example.com/x")] =
      (.ok "https://git.example.com/x",
        [("https://example.com/x?go-get=1", "https://git.example.com/x")], []) :=
  ⟨by decide, by decide,
    c5_theorem.1 "example.com/x" envTag
      [("https://example.com/x?go-get=1", "https://git.example.com/x")]
      "https://git.example.com/x" (by decide)⟩

/-! ## C7 — go.mod replace handling -/

/-- The go.mod file of the C7 counterexample: a single replace whose target
is the local filesystem path "../local" (and hence has no version). -/
def gmC7 : goModFile where
  Require := []
  Replace := [{ Old := { Path := "example.com/old", Version := "v1.0.0" },
                New := { Path := "../local", Version := "" } }]

/-- C7 counterexample: a replace entry whose target is the local filesystem
path "../local" is not ignored — the parser fails with a format error,
because only "./"-prefixed targets are skipped. -/
theorem c7_counterexample :
    parseGoModDependencies gmC7 =
      .error "poorly formatted version in replace section ../local: unknown file format"
    ∧ strStartsWith "../local" "./" = false :=
  ⟨by decide, by decide⟩

/-- C7 amended: a replace entry whose target path begins with "./" is
ignored entirely; any other replace target (when its version normalizes)
overrides Ref/Sha/GitURL of the require entry with the same module path
in place, and is dropped without creating a record when no require entry
matches. A local target that begins with "../" instead hits the
version-format error, since its version is empty. -/
theorem c7_theorem :
    (∀ (gm : goModFile) (rep : modReplace) (rest : List modReplace),
      gm.Replace = rep :: rest → strStartsWith rep.New.Path "./" = true →
      parseGoModDependencies gm = parseGoModDependencies { gm with Replace := rest })
    ∧ (∀ (requires : List modVersion) (rep : modReplace) (dm : DepMap),
      buildRequireMap [] requires = .ok dm →
      strStartsWith rep.New.Path "./" = false →
      (getCommitOrVersion rep.New.Version).1 ≠ "" →
      (∀ od, depLookup dm rep.New.Path = some od →
        goModDepMap { Require := requires, Replace := [rep] } =
          .ok (dm.map (fun q =>
            if q.1 = rep.New.Path then
              (q.1, { od with
                Ref := (getCommitOrVersion rep.New.Version).1,
                Sha := (formatDependency rep.New.Path (getCommitOrVersion rep.New.Version).1
                  (getCommitOrVersion rep.New.Version).2).Sha,
                GitURL := getGitURL rep.New.Path })
            else q)))
      ∧ (depLookup dm rep.New.Path = none →
        goModDepMap { Require := requires, Replace := [rep] } = .ok dm))
    ∧ (∀ (requires : List modVersion) (rep : modReplace) (dm : DepMap),
      buildRequireMap [] requires = .ok dm →
      strStartsWith rep.New.Path "./" = false → rep.New.Version = "" →
      parseGoModDependencies { Require := requires, Replace := [rep] } =
        .error ("poorly formatted version in replace section " ++ rep.New.Path ++
          ": unknown file format")) := by
  refine ⟨?_, ?_, ?_⟩
  · intro gm rep rest hgm hpre
    rw [parseGoModDependencies, parseGoModDependencies, goModDepMap, goModDepMap, hgm,
      buildReplaceMap, if_pos hpre]
  · intro requires rep dm hreq hpre hcv
    have hrm : buildReplaceMap [] [rep] =
        .ok [((formatDependency rep.New.Path (getCommitOrVersion rep.New.Version).1
          (getCommitOrVersion rep.New.Version).2).Name,
          formatDependency rep.New.Path (getCommitOrVersion rep.New.Version).1
            (getCommitOrVersion rep.New.Version).2)] := by
      rw [buildReplaceMap, if_neg (by simp [hpre]), if_neg hcv, buildReplaceMap]
      rfl
    constructor
    · intro od hod
      rw [goModDepMap]
      simp only [hreq, hrm]
      rw [mergeReplaces, List.foldl, List.foldl, applyReplace]
      have hname : (formatDependency rep.New.Path (getCommitOrVersion rep.New.Version).1
          (getCommitOrVersion rep.New.Version).2).Name = rep.New.Path := rfl
      rw [hname, hod]
      rfl
    · intro hod
      rw [goModDepMap]
      simp only [hreq, hrm]
      rw [mergeReplaces, List.foldl, List.foldl, applyReplace]
      have hname : (formatDependency rep.New.Path (getCommitOrVersion rep.New.Version).1
          (getCommitOrVersion rep.New.Version).2).Name = rep.New.Path := rfl
      rw [hname, hod]
  · intro requires rep dm hreq hpre hv
    rw [parseGoModDependencies, goModDepMap]
    have hrm : buildReplaceMap [] [rep] =
        .error ("poorly formatted version in replace section " ++ rep.New.Path ++
          ": unknown file format") := by
      rw [buildReplaceMap, if_neg (by simp [hpre])]
      rw [if_pos (by rw [hv]; rfl)]
      rw [modVersionString, if_pos hv]
    simp [hreq, hrm]

/-- C7 witness: the three amended branches evaluated on concrete go.mod
files — a "./" target is skipped, a matching replace overrides in place, a
non-matching replace is dropped. -/
theorem c7_witness :
    parseGoModDependencies
      { Require := [{ Path := "example.com/a", Version := "v1.0.0" }],
        Replace := [{ Old := { Path := "example.com/a", Version := "" },
                      New := { Path := "./local", Version := "" } }] } =
      parseGoModDependencies
        { Require := [{ Path := "example.com/a", Version := "v1.0.0" }], Replace := [] }
    ∧ goModDepMap
        { Require := [{ Path := "example.com/a", Version := "v1.0.0" }],
          Replace := [{ Old := { Path := "example.com/a", Version := "v1.0.0" },
                        New := { Path := "example.com/a", Version := "v1.1.0" } }] } =
      .ok [("example.com/a",
        { Name := "example.com/a", Ref := "v1.1.0", Sha := "", Previous := "", GitURL := "" })]
    ∧ goModDepMap
        { Require := [{ Path := "example.com/a", Version := "v1.0.0" }],
          Replace := [{ Old := { Path := "example.com/b", Version := "v1.0.0" },
                        New := { Path := "example.com/b", Version := "v2.0.0" } }] } =
      .ok [("example.com/a",
        { Name := "example.com/a", Ref := "v1.0.0", Sha := "", Previous := "", GitURL := "" })] := by
  refine ⟨c7_theorem.1 _ _ _ rfl (by decide), ?_, ?_⟩
  · have h := ((c7_theorem.2.1 [{ Path := "example.com/a", Version := "v1.0.0" }]
      { Old := { Path := "example.com/a", Version := "v1.0.0" },
        New := { Path := "example.com/a", Version := "v1.1.0" } }
      [("example.com/a",
        { Name := "example.com/a", Ref := "v1.0.0", Sha := "", Previous := "", GitURL := "" })]
      (by decide) (by decide) (by decide)).1
      { Name := "example.com/a", Ref := "v1.0.0", Sha := "", Previous := "", GitURL := "" }
      (by decide))
    rw [h]
    decide
  · exact (c7_theorem.2.1 [{ Path := "example.com/a", Version := "v1.0.0" }]
      { Old := { Path := "example.com/b", Version := "v1.0.0" },
        New := { Path := "example.com/b", Version := "v2.0.0" } }
      [("example.com/a",
        { Name := "example.com/a", Ref := "v1.0.0", Sha := "", Previous := "", GitURL := "" })]
      (by decide) (by decide) (by decide)).2 (by decide)

/-! ## C8 — remote commit resolution -/

/-- Truncation to 12 characters bounds the length. -/
theorem take12max_length (s : String) : (take12max s).data.length ≤ 12 := by
  unfold take12max
  split
  · simp only [strTake]
    rw [List.length_take]
    exact Nat.min_le_left _ _
  · rename_i h
    omega

/-- The sha selected from ls-remote output is always at most 12 characters. -/
theorem scanShaLines_length (lines : List String) : (scanShaLines lines).data.length ≤ 12 := by
  suffices h : ∀ st : String × Bool, st.1.data.length ≤ 12 →
      (lines.foldl scanShaStep st).1.data.length ≤ 12 by
    exact h ("", false) (by simp)
  induction lines with
  | nil => intro st h; exact h
  | cons l rest ih =>
    intro st h
    rw [List.foldl]
    refine ih _ ?_
    unfold scanShaStep
    split
    · split
      · exact take12max_length _
      · split
        · exact h
        · exact take12max_length _
    · exact h

/-- A run with no separator is one single piece. -/
theorem splitCharsAux_no_sep (p : Char → Bool) :
    ∀ (xs : List Char), (∀ a ∈ xs, p a = false) →
    ∀ acc, splitCharsAux p xs acc = [acc.reverse ++ xs] := by
  intro xs
  induction xs with
  | nil =>
    intro _ acc
    rw [splitCharsAux]
    simp
  | cons x t ih =>
    intro hxs acc
    rw [splitCharsAux, if_neg (by simp [hxs x (List.mem_cons_self x t)])]
    rw [ih (fun a ha => hxs a (List.mem_cons_of_mem x ha)) (x :: acc)]
    simp

/-- Splitting a separator-free run followed by a separator peels off the
run as the first piece. -/
theorem splitCharsAux_sep_split (p : Char → Bool) (c : Char) (hc : p c = true) (ys : List Char) :
    ∀ (xs : List Char), (∀ a ∈ xs, p a = false) →
    ∀ acc, splitCharsAux p (xs ++ c :: ys) acc =
      (acc.reverse ++ xs) :: splitCharsAux p ys [] := by
  intro xs
  induction xs with
  | nil =>
    intro _ acc
    rw [List.nil_append, splitCharsAux, if_pos hc]
    simp
  | cons x t ih =>
    intro hxs acc
    rw [List.cons_append, splitCharsAux, if_neg (by simp [hxs x (List.mem_cons_self x t)])]
    rw [ih (fun a ha => hxs a (List.mem_cons_of_mem x ha)) (x :: acc)]
    simp

/-- A 64 KiB line of hex filler: one character longer than the largest
token the default `bufio.Scanner` buffer can hold with its newline. -/
def longLine : String := ⟨List.replicate 65536 'a'⟩

/-- An ls-remote payload whose first line is perfectly usable and whose
second line overflows the scanner buffer. -/
def tooLongPayload : String :=
  "aaaaaaaaaaaaaaaaaaaaaaaaaaaaaaaaaaaaaaaa refs/tags/v1\n" ++ longLine

/-- Environment whose ls-remote output is `tooLongPayload`. -/
def envTooLong : Env where
  httpGet := fun _ => .error "unused"
  lsRemote := fun _ _ _ => .ok tooLongPayload

/-- No character of the 64 KiB filler line is a newline. -/
theorem longLine_no_newline : ∀ a ∈ longLine.data, decide (a = '\n') = false := by
  intro a ha
  have h : a = 'a' := List.eq_of_mem_replicate (by exact ha)
  subst h
  decide

/-- The raw scanner segments of the over-long payload: the usable line,
then the 64 KiB filler. -/
theorem rawLines_tooLongPayload :
    rawLines tooLongPayload =
      ["aaaaaaaaaaaaaaaaaaaaaaaaaaaaaaaaaaaaaaaa refs/tags/v1", longLine] := by
  have hdata : tooLongPayload.data =
      ("aaaaaaaaaaaaaaaaaaaaaaaaaaaaaaaaaaaaaaaa refs/tags/v1").data ++ '\n' :: longLine.data :=
    rfl
  rw [rawLines, strSplit, hdata]
  rw [splitCharsAux_sep_split _ '\n' (by decide) longLine.data _ (by decide) []]
  rw [splitCharsAux_no_sep _ longLine.data longLine_no_newline []]
  simp

/-- The filler line is 65536 characters long. -/
theorem longLine_length : longLine.data.length = 65536 := by
  show (List.replicate 65536 'a').length = 65536
  exact List.length_replicate 65536 'a'

/-- Scanning the over-long payload fails with `bufio.ErrTooLong`. -/
theorem scannerTooLong_tooLongPayload : scannerTooLong tooLongPayload = true := by
  rw [scannerTooLong, rawLines_tooLongPayload]
  simp only [List.any_cons, List.any_nil]
  have h2 : decide (maxScanTokenSize ≤ longLine.data.length) = true := by
    rw [longLine_length]
    decide
  rw [h2]
  simp

/-- C8 counterexample: an ls-remote response whose first line is usable
(it alone would yield the sha "aaaaaaaaaaaa") but whose second line
overflows the 64 KiB scanner buffer makes `getSha` return the scanner's
`bufio.ErrTooLong` error — so a response with zero usable lines is NOT the
only case in which this step returns an error. -/
theorem c8_counterexample :
    getSha "https://g/r" "v1" envTooLong [] =
      (.error "bufio.Scanner: token too long", [],
        [.lsRemote "https://g/r" "v1" ("v1" ++ peeledSuffix)])
    ∧ rawLines tooLongPayload =
      ["aaaaaaaaaaaaaaaaaaaaaaaaaaaaaaaaaaaaaaaa refs/tags/v1", longLine]
    ∧ scanShaLines ["aaaaaaaaaaaaaaaaaaaaaaaaaaaaaaaaaaaaaaaa refs/tags/v1"] = "aaaaaaaaaaaa"
    ∧ ("bufio.Scanner: token too long" : String) ≠ "revision not found" := by
  refine ⟨?_, rawLines_tooLongPayload, by decide, by decide⟩
  have hk : cacheGet [] (shaKey "https://g/r" "v1") = none := rfl
  have henv : envTooLong.lsRemote "https://g/r" "v1" ("v1" ++ peeledSuffix) =
      .ok tooLongPayload := rfl
  simp only [getSha, hk, henv, scannerTooLong_tooLongPayload, if_true]

/-- C8 amended: the remote resolution queries the ref and its peeled form
together; when the output carries both a plain and a peeled usable line
(in either order) the peeled sha wins, truncated to 12 characters; a failed
remote query degrades to an empty sha with no error and no cache write; and
this step returns an error in exactly two cases — a scanner failure on an
over-long output line (`bufio.ErrTooLong`, returned even if a usable line
was already scanned), or, with no over-long line, a response with zero
usable lines ("revision not found"). -/
theorem c8_theorem :
    (∀ gitURL rev env cache, cacheGet cache (shaKey gitURL rev) = none →
      (getSha gitURL rev env cache).2.2 = [.lsRemote gitURL rev (rev ++ peeledSuffix)])
    ∧ (∀ l1 l2 s1 r1 s2 r2, goFields l1 = [s1, r1] → strEndsWith r1 peeledSuffix = false →
      goFields l2 = [s2, r2] → strEndsWith r2 peeledSuffix = true →
      scanShaLines [l1, l2] = take12max s2 ∧ scanShaLines [l2, l1] = take12max s2)
    ∧ (∀ lines, (scanShaLines lines).data.length ≤ 12)
    ∧ (∀ gitURL rev env cache e, cacheGet cache (shaKey gitURL rev) = none →
      env.lsRemote gitURL rev (rev ++ peeledSuffix) = .error e →
      getSha gitURL rev env cache = (.ok "", cache, [.lsRemote gitURL rev (rev ++ peeledSuffix)]))
    ∧ (∀ gitURL rev env cache e cache2 calls,
      getSha gitURL rev env cache = (.error e, cache2, calls) →
      cacheGet cache (shaKey gitURL rev) = none
      ∧ ∃ b, env.lsRemote gitURL rev (rev ++ peeledSuffix) = .ok b
        ∧ ((e = "bufio.Scanner: token too long" ∧ scannerTooLong b = true)
          ∨ (e = "revision not found" ∧ scannerTooLong b = false
            ∧ scanShaLines (splitLines b) = "")))
    ∧ (∀ gitURL rev env cache b, cacheGet cache (shaKey gitURL rev) = none →
      env.lsRemote gitURL rev (rev ++ peeledSuffix) = .ok b →
      scannerTooLong b = true →
      getSha gitURL rev env cache =
        (.error "bufio.Scanner: token too long", cache,
          [.lsRemote gitURL rev (rev ++ peeledSuffix)]))
    ∧ (∀ gitURL rev env cache b, cacheGet cache (shaKey gitURL rev) = none →
      env.lsRemote gitURL rev (rev ++ peeledSuffix) = .ok b →
      scannerTooLong b = false → scanShaLines (splitLines b) = "" →
      getSha gitURL rev env cache =
        (.error "revision not found", cache,
          [.lsRemote gitURL rev (rev ++ peeledSuffix)])) := by
  refine ⟨?_, ?_, scanShaLines_length, ?_, ?_, ?_, ?_⟩
  · intro gitURL rev env cache h
    rw [getSha, h]
    cases env.lsRemote gitURL rev (rev ++ peeledSuffix) with
    | error e => rfl
    | ok b =>
      by_cases ht : scannerTooLong b = true
      · simp [ht]
      · by_cases hb : scanShaLines (splitLines b) = "" <;> simp [ht, hb]
  · intro l1 l2 s1 r1 s2 r2 h1 h2 h3 h4
    constructor <;> simp [scanShaLines, scanShaStep, h1, h2, h3, h4]
  · intro gitURL rev env cache e h henv
    rw [getSha, h, henv]
  · intro gitURL rev env cache e cache2 calls h
    rw [getSha] at h
    split at h
    · exact absurd h (by simp)
    · rename_i hc
      split at h
      · exact absurd h (by simp)
      · rename_i b hb
        split at h
        · rename_i ht
          rw [Prod.mk.injEq, Prod.mk.injEq] at h
          obtain ⟨h1, _, _⟩ := h
          rw [Except.error.injEq] at h1
          exact ⟨hc, b, hb, Or.inl ⟨h1.symm, ht⟩⟩
        · rename_i ht
          split at h
          · rename_i hz
            rw [Prod.mk.injEq, Prod.mk.injEq] at h
            obtain ⟨h1, _, _⟩ := h
            rw [Except.error.injEq] at h1
            exact ⟨hc, b, hb, Or.inr ⟨h1.symm, Bool.not_eq_true _ ▸ eq_false_of_ne_true ht, hz⟩⟩
          · exact absurd h (by simp)
  · intro gitURL rev env cache b h henv ht
    simp [getSha, h, henv, ht]
  · intro gitURL rev env cache b h henv ht hz
    simp [getSha, h, henv, ht, hz]

/-- Environment whose ls-remote output has one plain and one peeled line. -/
def envLsPair : Env where
  httpGet := fun _ => .error "unused"
  lsRemote := fun _ _ _ =>
    .ok ("aaaaaaaaaaaaaaaaaaaaaaaaaaaaaaaaaaaaaaaa refs/tags/v1\nbbbbbbbbbbbbbbbbbbbbbbbbbbbbbbbbbbbbbbbb refs/tags/v1^\x7b\x7d")

/-- Environment whose ls-remote output is empty (ref not present on the
remote, command still exits 0). -/
def envLsEmpty : Env where
  httpGet := fun _ => .error "unused"
  lsRemote := fun _ _ _ => .ok ""

/-- Environment whose ls-remote invocation fails. -/
def envLsFail : Env where
  httpGet := fun _ => .error "unused"
  lsRemote := fun _ _ _ => .error "exit status 128"

/-- C8 witness: the call-shape, peeled-preference, degradation and both
error branches of the amended statement evaluated on concrete data. -/
theorem c8_witness :
    (getSha "https://g/r" "v1" envLsPair []).2.2 =
      [.lsRemote "https://g/r" "v1" ("v1" ++ peeledSuffix)]
    ∧ scanShaLines ["aaaaaaaaaaaaaaaaaaaaaaaaaaaaaaaaaaaaaaaa refs/tags/v1",
        "bbbbbbbbbbbbbbbbbbbbbbbbbbbbbbbbbbbbbbbb refs/tags/v1^\x7b\x7d"] =
      take12max "bbbbbbbbbbbbbbbbbbbbbbbbbbbbbbbbbbbbbbbb"
    ∧ take12max "bbbbbbbbbbbbbbbbbbbbbbbbbbbbbbbbbbbbbbbb" = "bbbbbbbbbbbb"
    ∧ getSha "https://g/r" "v1" envLsFail [] =
      (.ok "", [], [.lsRemote "https://g/r" "v1" ("v1" ++ peeledSuffix)])
    ∧ getSha "https://g/r2" "v1" envTooLong [] =
      (.error "bufio.Scanner: token too long", [],
        [.lsRemote "https://g/r2" "v1" ("v1" ++ peeledSuffix)])
    ∧ getSha "https://g/r" "v1" envLsEmpty [] =
      (.error "revision not found", [],
        [.lsRemote "https://g/r" "v1" ("v1" ++ peeledSuffix)]) :=
  ⟨c8_theorem.1 "https://g/r" "v1" envLsPair [] rfl,
    (c8_theorem.2.1 "aaaaaaaaaaaaaaaaaaaaaaaaaaaaaaaaaaaaaaaa refs/tags/v1"
      "bbbbbbbbbbbbbbbbbbbbbbbbbbbbbbbbbbbbbbbb refs/tags/v1^\x7b\x7d"
      "aaaaaaaaaaaaaaaaaaaaaaaaaaaaaaaaaaaaaaaa" "refs/tags/v1"
      "bbbbbbbbbbbbbbbbbbbbbbbbbbbbbbbbbbbbbbbb" ("refs/tags/v1" ++ peeledSuffix)
      (by decide) (by decide) (by decide) (by decide)).1,
    by decide,
    c8_theorem.2.2.2.1 "https://g/r" "v1" envLsFail [] "exit status 128" rfl rfl,
    c8_theorem.2.2.2.2.2.1 "https://g/r2" "v1" envTooLong [] tooLongPayload rfl rfl
      scannerTooLong_tooLongPayload,
    c8_theorem.2.2.2.2.2.2 "https://g/r" "v1" envLsEmpty [] "" rfl rfl (by decide) (by decide)⟩

/-! ## C9 — determinism of the parsers -/

/-- The go.mod file of the C9 counterexample: two plain requires. -/
def gmC9 : goModFile where
  Require := [{ Path := "a/x", Version := "v1.0.0" }, { Path := "b/y", Version := "v2.0.0" }]
  Replace := []

/-- C9 counterexample: two legitimate iteration orders of the same final
map (both are permutations of its key set) produce different output
sequences for the module-declaration parser, so "identical sequences" fails
for it. -/
theorem c9_counterexample :
    parseGoModDependenciesWith gmC9 ["b/y", "a/x"] ≠ parseGoModDependenciesWith gmC9 ["a/x", "b/y"]
    ∧ (goModDepMap gmC9).map depMapKeys = .ok ["a/x", "b/y"]
    ∧ List.Perm ["b/y", "a/x"] ["a/x", "b/y"] :=
  ⟨by decide, by decide, List.Perm.swap "a/x" "b/y" []⟩

/-- C9 amended: the legacy and lockfile parsers are functions of the raw
content (parsing twice gives identical sequences); the module-declaration
parser gives, for any two iteration orders that are permutations of each
other, outputs that are permutations of each other (the same records, in a
map-iteration-dependent order). -/
theorem c9_theorem :
    (∀ content, parseVendorConfDependencies content = parseVendorConfDependencies content)
    ∧ (∀ content, parseModulesTxtDependencies content = parseModulesTxtDependencies content)
    ∧ (∀ gm o1 o2 l1 l2, List.Perm o1 o2 →
      parseGoModDependenciesWith gm o1 = .ok l1 →
      parseGoModDependenciesWith gm o2 = .ok l2 → List.Perm l1 l2) := by
  refine ⟨fun _ => rfl, fun _ => rfl, ?_⟩
  intro gm o1 o2 l1 l2 hperm h1 h2
  cases hm : goModDepMap gm with
  | error e =>
    rw [parseGoModDependenciesWith, hm] at h1
    exact absurd h1 (by simp)
  | ok m =>
    rw [parseGoModDependenciesWith, hm, Except.ok.injEq] at h1 h2
    subst h1 h2
    exact hperm.filterMap _

/-- Output of the counterexample file under the reversed iteration order. -/
def c9outRev : List dependency :=
  [{ Name := "b/y", Ref := "v2.0.0", Sha := "", Previous := "", GitURL := "" },
   { Name := "a/x", Ref := "v1.0.0", Sha := "", Previous := "", GitURL := "" }]

/-- Output of the counterexample file under the insertion iteration order. -/
def c9outIns : List dependency :=
  [{ Name := "a/x", Ref := "v1.0.0", Sha := "", Previous := "", GitURL := "" },
   { Name := "b/y", Ref := "v2.0.0", Sha := "", Previous := "", GitURL := "" }]

/-- C9 witness: the permutation statement evaluated on the two concrete
iteration orders of the counterexample file. -/
theorem c9_witness :
    List.Perm ["b/y", "a/x"] ["a/x", "b/y"]
    ∧ parseGoModDependenciesWith gmC9 ["b/y", "a/x"] = .ok c9outRev
    ∧ parseGoModDependenciesWith gmC9 ["a/x", "b/y"] = .ok c9outIns
    ∧ List.Perm c9outRev c9outIns :=
  ⟨List.Perm.swap "a/x" "b/y" [], by decide, by decide,
    c9_theorem.2.2 gmC9 ["b/y", "a/x"] ["a/x", "b/y"] c9outRev c9outIns
      (List.Perm.swap "a/x" "b/y" []) (by decide) (by decide)⟩

/-! ## C1 — fatality of resolution failures in the differ -/

/-- Previous snapshot of the C1 counterexample: one dependency with no
pinned sha and no known clone URL. -/
def prevC1 : List dependency :=
  [{ Name := "example.org/a", Ref := "v1", Sha := "", Previous := "", GitURL := "" }]

/-- Current snapshot of the C1 counterexample: same dependency, new ref. -/
def curC1 : List dependency :=
  [{ Name := "example.org/a", Ref := "v2", Sha := "", Previous := "", GitURL := "" }]

/-- Environment whose ls-remote invocations always fail. -/
def envAllFail : Env where
  httpGet := fun _ => .error "connection refused"
  lsRemote := fun _ _ _ => .error "exit status 128"

/-- Previous snapshot with a known clone URL but no sha. -/
def prevC1b : List dependency :=
  [{ Name := "example.org/a", Ref := "v1", Sha := "", Previous := "", GitURL := "https://g/a" }]

/-- Current snapshot with a known clone URL but no sha. -/
def curC1b : List dependency :=
  [{ Name := "example.org/a", Ref := "v2", Sha := "", Previous := "", GitURL := "https://g/a" }]

/-- C1 counterexample: (1) a missing go-import meta tag aborts the whole
diff with an error, instead of degrading to an empty GitURL with a nil
error; (2) a dependency whose Ref differs but whose commit resolves on
neither side (both ls-remote calls fail) is NOT emitted — the two empty
Shas compare equal — rather than being reported as updated on Ref
inequality alone. -/
theorem c1_counterexample :
    getUpdatedDeps prevC1 curC1 [] envNoTag [] =
      .error ("git url for \"example.org/a\": no go-import meta tag")
    ∧ getUpdatedDeps prevC1b curC1b [] envAllFail [] =
      .ok ([], [], [.lsRemote "https://g/a" "v1" ("v1" ++ peeledSuffix),
        .lsRemote "https://g/a" "v2" ("v2" ++ peeledSuffix)]) :=
  ⟨by decide, by decide⟩

/-- C1 amended: only a failed `git ls-remote` invocation is non-fatal — it
yields an empty Sha with a nil error and the diff proceeds; when that
happens on both sides of a ref change, the dependency is not emitted (both
Shas are empty and equal); a git-origin resolution failure (HTTP error,
missing go-import tag) instead aborts the whole diff with an error. -/
theorem c1_theorem :
    (∀ (pm : DepMap) (ignored : List String) (env : Env) (cache : Cache) (name : String)
      (c d : dependency) (e1 e2 : String),
      depLookup pm name = some d → name ∉ ignored →
      d.Ref ≠ c.Ref → d.Sha = "" → c.Sha = "" → d.GitURL ≠ "" → c.GitURL ≠ "" →
      cacheGet cache (shaKey d.GitURL d.Ref) = none →
      env.lsRemote d.GitURL d.Ref (d.Ref ++ peeledSuffix) = .error e1 →
      cacheGet cache (shaKey c.GitURL c.Ref) = none →
      env.lsRemote c.GitURL c.Ref (c.Ref ++ peeledSuffix) = .error e2 →
      diffOne pm ignored env cache name c =
        .ok (none, cache, [.lsRemote d.GitURL d.Ref (d.Ref ++ peeledSuffix),
          .lsRemote c.GitURL c.Ref (c.Ref ++ peeledSuffix)]))
    ∧ (∀ (pm : DepMap) (ignored : List String) (env : Env) (cache : Cache) (name : String)
      (c d : dependency) (e : String),
      depLookup pm name = some d → name ∉ ignored →
      d.Ref ≠ c.Ref → d.Sha = "" → d.GitURL = "" →
      cacheGet cache (goGetURL name) = none →
      env.httpGet (goGetURL name) = .error e →
      diffOne pm ignored env cache name c =
        .error ("git url for " ++ quoted name ++ ": " ++ e)) := by
  constructor
  · intro pm ignored env cache name c d e1 e2 hd hni href hdsha hcsha hdurl hcurl hkd henvd hkc henvc
    have hgd : getSha d.GitURL d.Ref env cache =
        (.ok "", cache, [.lsRemote d.GitURL d.Ref (d.Ref ++ peeledSuffix)]) := by
      rw [getSha, hkd, henvd]
    have hgc : getSha c.GitURL c.Ref env cache =
        (.ok "", cache, [.lsRemote c.GitURL c.Ref (c.Ref ++ peeledSuffix)]) := by
      rw [getSha, hkc, henvc]
    have hprev : resolvePrevSha name d c env cache =
        .ok ({ d with Sha := "" }, c, cache,
          [.lsRemote d.GitURL d.Ref (d.Ref ++ peeledSuffix)]) := by
      rw [resolvePrevSha, if_pos hdsha, resolvePrevURL, if_neg hdurl]
      simp only [hgd]
      rfl
    have hcurr : resolveCurrSha name c env cache =
        .ok ({ c with Sha := "" }, cache,
          [.lsRemote c.GitURL c.Ref (c.Ref ++ peeledSuffix)]) := by
      rw [resolveCurrSha, if_pos hcsha, resolveCurrURL, if_neg hcurl]
      simp only [hgc]
      rfl
    simp only [diffOne, if_neg hni, hd, if_pos href, hprev, hcurr]
    simp
  · intro pm ignored env cache name c d e hd hni href hdsha hdurl hk henv
    have hres : resolveGitURL name env cache =
        (.error e, cache, [.httpGet (goGetURL name)]) := by
      rw [resolveGitURL, hk, henv]
    have hprev : resolvePrevSha name d c env cache =
        .error ("git url for " ++ quoted name ++ ": " ++ e) := by
      rw [resolvePrevSha, if_pos hdsha, resolvePrevURL, if_pos hdurl]
      simp only [hres]
    simp only [diffOne, if_neg hni, hd, if_pos href, hprev]

/-- C1 witness: the two amended branches evaluated on concrete snapshots —
double ls-remote failure is non-fatal and suppresses the report; an HTTP
failure during git-origin resolution is fatal. -/
theorem c1_witness :
    diffOne (toDepMap prevC1b) [] envAllFail [] "example.org/a"
        { Name := "example.org/a", Ref := "v2", Sha := "", Previous := "", GitURL := "https://g/a" } =
      .ok (none, [], [.lsRemote "https://g/a" "v1" ("v1" ++ peeledSuffix),
        .lsRemote "https://g/a" "v2" ("v2" ++ peeledSuffix)])
    ∧ diffOne (toDepMap prevC1) [] envAllFail [] "example.org/a"
        { Name := "example.org/a", Ref := "v2", Sha := "", Previous := "", GitURL := "" } =
      .error ("git url for " ++ quoted "example.org/a" ++ ": " ++ "connection refused") :=
  ⟨c1_theorem.1 (toDepMap prevC1b) [] envAllFail [] "example.org/a"
      { Name := "example.org/a", Ref := "v2", Sha := "", Previous := "", GitURL := "https://g/a" }
      { Name := "example.org/a", Ref := "v1", Sha := "", Previous := "", GitURL := "https://g/a" }
      "exit status 128" "exit status 128"
      (by decide) (by decide) (by decide) rfl rfl (by decide) (by decide)
      rfl rfl rfl rfl,
    c1_theorem.2 (toDepMap prevC1) [] envAllFail [] "example.org/a"
      { Name := "example.org/a", Ref := "v2", Sha := "", Previous := "", GitURL := "" }
      { Name := "example.org/a", Ref := "v1", Sha := "", Previous := "", GitURL := "" }
      "connection refused"
      (by decide) (by decide) (by decide) rfl rfl (by decide) rfl⟩

/-! ## C3 — per-dependency diff behaviour -/

/-- Every entry of the differ's map carries its own name as key. -/
theorem toDepMap_nameKey (deps : List dependency) : ∀ p ∈ toDepMap deps, p.2.Name = p.1 := by
  suffices h : ∀ m0 : DepMap, (∀ p ∈ m0, p.2.Name = p.1) →
      ∀ p ∈ deps.foldl (fun m d => insertDep m d.Name d) m0, p.2.Name = p.1 by
    exact h [] (by simp)
  induction deps with
  | nil => intro m0 hm0; exact hm0
  | cons d t ih =>
    intro m0 hm0
    rw [List.foldl]
    refine ih _ (fun p hp => ?_)
    rcases mem_insertDep hp with h' | h'
    · exact hm0 p h'
    · rw [h']

/-- Inserting preserves the key list when the key is present, otherwise
appends it. -/
theorem depMapKeys_insertDep (m : DepMap) (k : String) (d : dependency) :
    depMapKeys (insertDep m k d) =
      if (depLookup m k).isSome then depMapKeys m else depMapKeys m ++ [k] := by
  unfold insertDep depMapKeys
  split
  · rw [List.map_map]
    congr 1
    funext q
    by_cases h : q.1 = k <;> simp [h]
  · simp

/-- A key that fails to look up is not in the key list. -/
theorem depLookup_eq_none {m : DepMap} {k : String} (h : depLookup m k = none) :
    k ∉ depMapKeys m := by
  induction m with
  | nil => simp [depMapKeys]
  | cons p rest ih =>
    rw [depLookup] at h
    split at h
    · exact absurd h (by simp)
    · rename_i hne
      simp only [depMapKeys, List.map_cons]
      intro hk
      rcases List.mem_cons.mp hk with h' | h'
      · exact hne h'.symm
      · exact ih h h'

/-- The differ's map has pairwise distinct keys. -/
theorem toDepMap_keys_nodup (deps : List dependency) : (depMapKeys (toDepMap deps)).Nodup := by
  suffices h : ∀ m0 : DepMap, (depMapKeys m0).Nodup →
      (depMapKeys (deps.foldl (fun m d => insertDep m d.Name d) m0)).Nodup by
    exact h [] (by simp [depMapKeys])
  induction deps with
  | nil => intro m0 hm0; exact hm0
  | cons d t ih =>
    intro m0 hm0
    rw [List.foldl]
    refine ih _ ?_
    rw [depMapKeys_insertDep]
    split
    · exact hm0
    · rename_i hs
      rw [List.nodup_append]
      refine ⟨hm0, by simp, ?_⟩
      intro a ha hb
      rw [List.mem_singleton] at hb
      subst hb
      exact depLookup_eq_none (Option.not_isSome_iff_eq_none.mp hs) ha

/-- The previous-side URL step leaves the current record's name unchanged. -/
theorem resolvePrevURL_curr {name : String} {d c : dependency} {env : Env} {cache : Cache}
    {d1 c1 : dependency} {cache1 : Cache} {calls1 : List remoteCall}
    (h : resolvePrevURL name d c env cache = .ok (d1, c1, cache1, calls1)) :
    c1.Name = c.Name := by
  rw [resolvePrevURL] at h
  split at h
  · split at h
    · exact absurd h (by simp)
    · rw [Except.ok.injEq, Prod.mk.injEq, Prod.mk.injEq] at h
      obtain ⟨_, hc, _⟩ := h
      rw [← hc]
      by_cases hcu : c.GitURL = "" <;> simp [hcu]
  · rw [Except.ok.injEq, Prod.mk.injEq, Prod.mk.injEq] at h
    obtain ⟨_, hc, _⟩ := h
    rw [← hc]

/-- The previous-side enrichment leaves the current record's name
unchanged. -/
theorem resolvePrevSha_curr {name : String} {d c : dependency} {env : Env} {cache : Cache}
    {d1 c1 : dependency} {cache1 : Cache} {calls1 : List remoteCall}
    (h : resolvePrevSha name d c env cache = .ok (d1, c1, cache1, calls1)) :
    c1.Name = c.Name := by
  rw [resolvePrevSha] at h
  split at h
  · split at h
    · exact absurd h (by simp)
    · rename_i d1' c1' cache1' calls1' heq1
      split at h
      · exact absurd h (by simp)
      · rw [Except.ok.injEq, Prod.mk.injEq, Prod.mk.injEq] at h
        obtain ⟨_, hc, _⟩ := h
        rw [← hc]
        exact resolvePrevURL_curr heq1
  · rw [Except.ok.injEq, Prod.mk.injEq, Prod.mk.injEq] at h
    obtain ⟨_, hc, _⟩ := h
    rw [← hc]

/-- The current-side URL step leaves the record's name unchanged. -/
theorem resolveCurrURL_name {name : String} {c : dependency} {env : Env} {cache : Cache}
    {c1 : dependency} {cache1 : Cache} {calls1 : List remoteCall}
    (h : resolveCurrURL name c env cache = .ok (c1, cache1, calls1)) :
    c1.Name = c.Name := by
  rw [resolveCurrURL] at h
  split at h
  · split at h
    · exact absurd h (by simp)
    · rw [Except.ok.injEq, Prod.mk.injEq] at h
      obtain ⟨hc, _⟩ := h
      rw [← hc]
  · rw [Except.ok.injEq, Prod.mk.injEq] at h
    obtain ⟨hc, _⟩ := h
    rw [← hc]

/-- The current-side enrichment changes at most GitURL and Sha, never the
name. -/
theorem resolveCurrSha_name {name : String} {c : dependency} {env : Env} {cache : Cache}
    {c2 : dependency} {cache2 : Cache} {calls2 : List remoteCall}
    (h : resolveCurrSha name c env cache = .ok (c2, cache2, calls2)) :
    c2.Name = c.Name := by
  rw [resolveCurrSha] at h
  split at h
  · split at h
    · exact absurd h (by simp)
    · rename_i c1' cache1' calls1' heq1
      split at h
      · exact absurd h (by simp)
      · rw [Except.ok.injEq, Prod.mk.injEq] at h
        obtain ⟨hc, _⟩ := h
        rw [← hc]
        show c1'.Name = c.Name
        exact resolveCurrURL_name heq1
  · rw [Except.ok.injEq, Prod.mk.injEq] at h
    obtain ⟨hc, _⟩ := h
    rw [← hc]

/-- Whatever one loop iteration of the differ emits keeps the current
record's name, and its Previous field is the previous snapshot's Ref
whenever the name is present there. -/
theorem diffOne_emitted {pm : DepMap} {ignored : List String} {env : Env} {cache : Cache}
    {name : String} {c u : dependency} {cache2 : Cache} {calls : List remoteCall}
    (h : diffOne pm ignored env cache name c = .ok (some u, cache2, calls)) :
    u.Name = c.Name ∧ ∀ d, depLookup pm name = some d → u.Previous = d.Ref := by
  rw [diffOne] at h
  split at h
  · exact absurd h (by simp)
  · split at h
    · rename_i hnone
      rw [Except.ok.injEq, Prod.mk.injEq, Prod.mk.injEq, Option.some.injEq] at h
      obtain ⟨hu, _, _⟩ := h
      exact ⟨by rw [← hu], fun d hd => absurd hd (by rw [hnone]; simp)⟩
    · rename_i d0 hlook
      split at h
      · split at h
        · exact absurd h (by simp)
        · rename_i t1 d1 c1 cache1 calls1 heq1
          split at h
          · exact absurd h (by simp)
          · rename_i t2 c2 cache2' calls2' heq2
            split at h
            · rw [Except.ok.injEq, Prod.mk.injEq, Prod.mk.injEq, Option.some.injEq] at h
              obtain ⟨hu, _, _⟩ := h
              constructor
              · rw [← hu]
                show c2.Name = c.Name
                rw [resolveCurrSha_name heq2, resolvePrevSha_curr heq1]
              · intro d hd
                rw [hlook, Option.some.injEq] at hd
                rw [← hu, ← hd]
            · exact absurd h (by simp)
      · exact absurd h (by simp)

/-- Every record emitted by the diff loop carries a key of the iterated
order as its name. -/
theorem runDiff_mem_keys (pm : DepMap) (ignored : List String) (env : Env) :
    ∀ (order : List (String × dependency)) (cache : Cache) us cf calls,
    (∀ p ∈ order, p.2.Name = p.1) →
    runDiff pm ignored env order cache = .ok (us, cf, calls) →
    ∀ u ∈ us, u.Name ∈ order.map Prod.fst := by
  intro order
  induction order with
  | nil =>
    intro cache us cf calls hkeys h u hu
    rw [runDiff, Except.ok.injEq, Prod.mk.injEq, Prod.mk.injEq] at h
    obtain ⟨h1, _, _⟩ := h
    rw [← h1] at hu
    simp at hu
  | cons p rest ih =>
    obtain ⟨pn, pc⟩ := p
    intro cache us cf calls hkeys h u hu
    rw [runDiff] at h
    split at h
    · exact absurd h (by simp)
    · rename_i t1 emitted cache1 calls1 heq1
      split at h
      · exact absurd h (by simp)
      · rename_i t2 us2 cache2 calls2 heq2
        rw [Except.ok.injEq, Prod.mk.injEq, Prod.mk.injEq] at h
        obtain ⟨h1, _, _⟩ := h
        rw [← h1] at hu
        cases emitted with
        | none =>
          simp only at hu
          exact List.mem_cons_of_mem _
            (ih cache1 us2 cache2 calls2 (fun q hq => hkeys q (List.mem_cons_of_mem _ hq)) heq2 u hu)
        | some u0 =>
          simp only at hu
          rcases List.mem_cons.mp hu with h' | h'
          · subst h'
            have hn := (diffOne_emitted heq1).1
            have hk := hkeys (pn, pc) (List.mem_cons_self _ _)
            rw [List.map_cons]
            exact List.mem_cons.mpr (Or.inl (by rw [hn]; exact hk))
          · exact List.mem_cons_of_mem _
              (ih cache1 us2 cache2 calls2 (fun q hq => hkeys q (List.mem_cons_of_mem _ hq)) heq2 u h')

/-- When the iterated order has pairwise distinct keys, at most one emitted
record carries any given name. -/
theorem runDiff_count (pm : DepMap) (ignored : List String) (env : Env) (n : String) :
    ∀ (order : List (String × dependency)) (cache : Cache) us cf calls,
    (∀ p ∈ order, p.2.Name = p.1) → (order.map Prod.fst).Nodup →
    runDiff pm ignored env order cache = .ok (us, cf, calls) →
    us.countP (fun u => u.Name == n) ≤ 1 := by
  intro order
  induction order with
  | nil =>
    intro cache us cf calls hkeys hnd h
    rw [runDiff, Except.ok.injEq, Prod.mk.injEq, Prod.mk.injEq] at h
    obtain ⟨h1, _, _⟩ := h
    rw [← h1]
    simp
  | cons p rest ih =>
    obtain ⟨pn, pc⟩ := p
    intro cache us cf calls hkeys hnd h
    rw [runDiff] at h
    split at h
    · exact absurd h (by simp)
    · rename_i t1 emitted cache1 calls1 heq1
      split at h
      · exact absurd h (by simp)
      · rename_i t2 us2 cache2 calls2 heq2
        rw [Except.ok.injEq, Prod.mk.injEq, Prod.mk.injEq] at h
        obtain ⟨h1, _, _⟩ := h
        rw [← h1]
        have hkeys2 : ∀ q ∈ rest, q.2.Name = q.1 :=
          fun q hq => hkeys q (List.mem_cons_of_mem _ hq)
        have hnd2 : (rest.map Prod.fst).Nodup := by
          rw [List.map_cons] at hnd
          exact hnd.of_cons
        cases emitted with
        | none => exact ih cache1 us2 cache2 calls2 hkeys2 hnd2 heq2
        | some u0 =>
          simp only [List.countP_cons]
          by_cases hn : u0.Name = n
          · have hcount0 : us2.countP (fun u => u.Name == n) = 0 := by
              rw [List.countP_eq_zero]
              intro u hu
              have hmem := runDiff_mem_keys pm ignored env rest cache1 us2 cache2 calls2
                hkeys2 heq2 u hu
              have hpn : u0.Name = pc.Name := (diffOne_emitted heq1).1
              have hkpn : pc.Name = pn := hkeys (pn, pc) (List.mem_cons_self _ _)
              have hpn_eq : pn = n := by rw [← hkpn, ← hpn, hn]
              have hnotin : n ∉ rest.map Prod.fst := by
                rw [← hpn_eq]
                exact (List.nodup_cons.mp hnd).1
              intro hbeq
              rw [beq_iff_eq] at hbeq
              rw [hbeq] at hmem
              exact hnotin hmem
            rw [hcount0]
            simp [hn]
          · have := ih cache1 us2 cache2 calls2 hkeys2 hnd2 heq2
            have hbeq : (u0.Name == n) = false := by
              rw [beq_eq_false_iff_ne]
              exact hn
            rw [hbeq]
            simpa using this

/-- An emitted record named `n` has Previous equal to the Ref that `n` maps
to in the previous snapshot. -/
theorem runDiff_previous (pm : DepMap) (ignored : List String) (env : Env) (n : String)
    (dref : dependency) (hpm : depLookup pm n = some dref) :
    ∀ (order : List (String × dependency)) (cache : Cache) us cf calls,
    (∀ p ∈ order, p.2.Name = p.1) →
    runDiff pm ignored env order cache = .ok (us, cf, calls) →
    ∀ u ∈ us, u.Name = n → u.Previous = dref.Ref := by
  intro order
  induction order with
  | nil =>
    intro cache us cf calls hkeys h u hu
    rw [runDiff, Except.ok.injEq, Prod.mk.injEq, Prod.mk.injEq] at h
    obtain ⟨h1, _, _⟩ := h
    rw [← h1] at hu
    simp at hu
  | cons p rest ih =>
    obtain ⟨pn, pc⟩ := p
    intro cache us cf calls hkeys h u hu hun
    rw [runDiff] at h
    split at h
    · exact absurd h (by simp)
    · rename_i t1 emitted cache1 calls1 heq1
      split at h
      · exact absurd h (by simp)
      · rename_i t2 us2 cache2 calls2 heq2
        rw [Except.ok.injEq, Prod.mk.injEq, Prod.mk.injEq] at h
        obtain ⟨h1, _, _⟩ := h
        rw [← h1] at hu
        have hkeys2 : ∀ q ∈ rest, q.2.Name = q.1 :=
          fun q hq => hkeys q (List.mem_cons_of_mem _ hq)
        cases emitted with
        | none =>
          simp only at hu
          exact ih cache1 us2 cache2 calls2 hkeys2 heq2 u hu hun
        | some u0 =>
          simp only at hu
          rcases List.mem_cons.mp hu with h' | h'
          · subst h'
            -- the emitted record carries key pn as its name, so pn = n and
            -- its Previous field was set from the previous snapshot at n
            have hn0 := (diffOne_emitted heq1).1
            have hkpn : pc.Name = pn := hkeys (pn, pc) (List.mem_cons_self _ _)
            have hpn : pn = n := by rw [← hkpn, ← hn0, hun]
            subst hpn
            exact (diffOne_emitted heq1).2 dref hpm
          · exact ih cache1 us2 cache2 calls2 hkeys2 heq2 u h' hun

/-- C3: for a dependency name present in both snapshots and not ignored —
equal Refs short-circuit with no emission, no remote call and an untouched
cache (the result does not depend on the environment or cache at all);
differing Refs with equal resolved Shas emit nothing; differing resolved
Shas emit exactly the enriched current record with Previous set to the
previous snapshot's Ref, and across the whole diff at most one record with
that name is emitted, always carrying that Previous. -/
theorem c3_theorem (previous deps : List dependency) (ignored : List String)
    (name : String) (c d : dependency)
    (_hc : depLookup (toDepMap deps) name = some c)
    (hd : depLookup (toDepMap previous) name = some d)
    (hni : name ∉ ignored) :
    (d.Ref = c.Ref → ∀ (env : Env) (cache : Cache),
      diffOne (toDepMap previous) ignored env cache name c = .ok (none, cache, []))
    ∧ (∀ (env : Env) (cache : Cache) d1 c1 cache1 k1 c2 cache2 k2, d.Ref ≠ c.Ref →
      resolvePrevSha name d c env cache = .ok (d1, c1, cache1, k1) →
      resolveCurrSha name c1 env cache1 = .ok (c2, cache2, k2) →
      (d1.Sha = c2.Sha →
        diffOne (toDepMap previous) ignored env cache name c = .ok (none, cache2, k1 ++ k2))
      ∧ (d1.Sha ≠ c2.Sha →
        diffOne (toDepMap previous) ignored env cache name c =
          .ok (some { c2 with Previous := d.Ref }, cache2, k1 ++ k2)
        ∧ ({ c2 with Previous := d.Ref } : dependency).Previous = d.Ref))
    ∧ (∀ (env : Env) (cache : Cache) us cf calls,
      runDiff (toDepMap previous) ignored env (toDepMap deps) cache = .ok (us, cf, calls) →
      us.countP (fun u => u.Name == name) ≤ 1
      ∧ ∀ u ∈ us, u.Name = name → u.Previous = d.Ref) := by
  refine ⟨?_, ?_, ?_⟩
  · intro href env cache
    simp only [diffOne, if_neg hni, hd, if_neg (fun hne : d.Ref ≠ c.Ref => hne href)]
  · intro env cache d1 c1 cache1 k1 c2 cache2 k2 href h1 h2
    constructor
    · intro hsha
      simp only [diffOne, if_neg hni, hd, if_pos href, h1, h2,
        if_neg (fun hne : d1.Sha ≠ c2.Sha => hne hsha)]
    · intro hsha
      refine ⟨?_, rfl⟩
      simp only [diffOne, if_neg hni, hd, if_pos href, h1, h2, if_pos hsha]
  · intro env cache us cf calls h
    refine ⟨runDiff_count (toDepMap previous) ignored env name (toDepMap deps) cache us cf calls
        (toDepMap_nameKey deps) (toDepMap_keys_nodup deps) h, ?_⟩
    exact runDiff_previous (toDepMap previous) ignored env name d hd (toDepMap deps) cache
      us cf calls (toDepMap_nameKey deps) h

/-- Previous snapshot used by the C3 witness. -/
def prevC3 : List dependency :=
  [{ Name := "example.org/a", Ref := "v1", Sha := "", Previous := "", GitURL := "https://g/a" }]

/-- Current snapshot used by the C3 witness (same Ref as the previous). -/
def curC3 : List dependency :=
  [{ Name := "example.org/a", Ref := "v1", Sha := "", Previous := "", GitURL := "https://g/a" }]

/-- C3 witness: the equal-Ref short-circuit and the whole-diff uniqueness
bound evaluated on concrete snapshots. -/
theorem c3_witness :
    depLookup (toDepMap curC3) "example.org/a" =
      some { Name := "example.org/a", Ref := "v1", Sha := "", Previous := "",
             GitURL := "https://g/a" }
    ∧ depLookup (toDepMap prevC3) "example.org/a" =
      some { Name := "example.org/a", Ref := "v1", Sha := "", Previous := "",
             GitURL := "https://g/a" }
    ∧ "example.org/a" ∉ ([] : List String)
    ∧ diffOne (toDepMap prevC3) [] envW [] "example.org/a"
        { Name := "example.org/a", Ref := "v1", Sha := "", Previous := "",
          GitURL := "https://g/a" } = .ok (none, [], [])
    ∧ runDiff (toDepMap prevC3) [] envW (toDepMap curC3) [] = .ok ([], [], [])
    ∧ ([] : List dependency).countP (fun u => u.Name == "example.org/a") ≤ 1 :=
  ⟨by decide, by decide, by decide,
    (c3_theorem prevC3 curC3 [] "example.org/a"
      { Name := "example.org/a", Ref := "v1", Sha := "", Previous := "", GitURL := "https://g/a" }
      { Name := "example.org/a", Ref := "v1", Sha := "", Previous := "", GitURL := "https://g/a" }
      (by decide) (by decide) (by decide)).1 rfl envW [],
    by decide,
    ((c3_theorem prevC3 curC3 [] "example.org/a"
      { Name := "example.org/a", Ref := "v1", Sha := "", Previous := "", GitURL := "https://g/a" }
      { Name := "example.org/a", Ref := "v1", Sha := "", Previous := "", GitURL := "https://g/a" }
      (by decide) (by decide) (by decide)).2.2 envW [] [] [] [] (by decide)).1⟩

end ReleaseTool
